import Mathlib

/-!
# Edipress: the KDP formatting service (`src/services/kdpFormatter.js`)

A shallow embedding of `KDPFormatter`: the rule objects and the two built-in
templates, `applyFormatting`, the unit conversion and the stylesheet of
`generatePdf`, the browser life cycle of `generatePdf`, `formatDocument` and
`getAvailableTemplates`.

Conventions of the embedding.
* A JavaScript object whose keys are fixed by the source is a structure; a
  property that may be `undefined` is an `Option`.
* An attribute mapping (a rule category, an element's inline style) is an
  association list with string keys, in insertion order.
* A thrown `Error` is `Except.error message`.
* The global `DOMParser`, which `applyFormatting` constructs and which no file of
  the repository defines, is a parameter: `none` when the global scope has no
  such binding (the Node process that `index.js` starts), in which case
  `new DOMParser()` throws a `ReferenceError`, and otherwise the DOM
  implementation in scope.
* Of a DOM implementation only the effect of an assignment to a property of an
  element's `style` is used, and nothing is assumed of it beyond that it
  completes. The document is the list of its elements in document order, which
  is the order of every `querySelectorAll` result.
* A call to a library (`mammoth`, `html-docx-js`, `fs`, `puppeteer`) completes
  with a value or with an error; its outcome is a parameter.
* A JavaScript number is a binary64 value, kept as sign, odd mantissa and
  binary exponent; arithmetic rounds to nearest, ties to even.
-/

namespace Edipress

/-! ## Attribute mappings -/

/-- Attribute mapping: a plain object with string values, keys in insertion order. -/
abbrev Style := List (String × String)

/-- Property read `o[k]`; `none` is `undefined`. -/
def Style.get : Style → String → Option String
  | [], _ => none
  | (k, v) :: rest, key => if k = key then some v else Style.get rest key

/-- Property write `o[k] = v`: an existing key keeps its place, a new key is appended. -/
def Style.set : Style → String → String → Style
  | [], key, val => [(key, val)]
  | (k, v) :: rest, key, val =>
    if k = key then (k, val) :: rest else (k, v) :: Style.set rest key val

/-- Copy of the own properties of `source` onto a plain object `target`, in
order: the body of `{...target, k: v, ...}`. -/
def Style.assignAll (target : Style) (source : Style) : Style :=
  source.foldl (fun acc kv => acc.set kv.1 kv.2) target

/-- Object spread followed by literal properties: `{...base, k1: v1, ...}`.
Spreading `undefined` contributes nothing. -/
def spread (base : Option Style) (literal : Style) : Style :=
  Style.assignAll (base.getD []) literal

/-! ## Rule sets -/

/-- Shape of `rules.titlePage`. -/
structure TitlePageRules where
  title : Option Style
  author : Option Style
  deriving DecidableEq, Repr

/-- Shape of `rules.chapter`. -/
structure ChapterRules where
  title : Option Style
  firstParagraph : Option Style
  paragraph : Option Style
  deriving DecidableEq, Repr

/-- Shape of `rules.section`. -/
structure SectionRules where
  title : Option Style
  deriving DecidableEq, Repr

/-- Shape of `rules.page`. -/
structure PageRules where
  margin : Option Style
  size : Option Style
  deriving DecidableEq, Repr

/-- Shape of a rule set (`this.formattingRules`, `template.rules`). -/
structure Rules where
  titlePage : Option TitlePageRules
  chapter : Option ChapterRules
  «section» : Option SectionRules
  text : Option Style
  page : Option PageRules
  deriving DecidableEq, Repr

/-- The rule set `this.formattingRules` of the constructor. -/
def formattingRules : Rules where
  titlePage := some {
    title := some [("fontSize", "24pt"), ("fontWeight", "bold"), ("textAlign", "center"),
      ("marginTop", "2in"), ("marginBottom", "1in")]
    author := some [("fontSize", "16pt"), ("textAlign", "center"), ("marginBottom", "2in")] }
  chapter := some {
    title := some [("fontSize", "16pt"), ("fontWeight", "bold"), ("textAlign", "center"),
      ("marginTop", "1in"), ("marginBottom", "0.5in"), ("pageBreakBefore", "always")]
    firstParagraph := some [("textIndent", "0"), ("marginTop", "0.5in")]
    paragraph := some [("textIndent", "0.25in"), ("lineHeight", "1.15"),
      ("marginBottom", "0.5em"), ("orphans", "2"), ("widows", "2")] }
  «section» := some {
    title := some [("fontSize", "14pt"), ("fontWeight", "bold"), ("marginTop", "0.5in"),
      ("marginBottom", "0.25in")] }
  text := some [("fontFamily", "Times New Roman"), ("fontSize", "12pt"), ("color", "#000000")]
  page := some {
    margin := some [("top", "0.75in"), ("bottom", "0.75in"), ("left", "0.75in"),
      ("right", "0.75in")]
    size := some [("width", "6in"), ("height", "9in")] }

/-- The read `this.formattingRules.chapter.title`. -/
def baseChapterTitle : Option Style := formattingRules.chapter.bind (·.title)

/-- The read `this.formattingRules.section.title`. -/
def baseSectionTitle : Option Style := formattingRules.«section».bind (·.title)

/-- Spread `{...this.formattingRules.chapter}`. -/
def spreadChapter (c : Option ChapterRules) : ChapterRules :=
  c.getD { title := none, firstParagraph := none, paragraph := none }

/-- Spread `{...this.formattingRules.section}`. -/
def spreadSection (s : Option SectionRules) : SectionRules :=
  s.getD { title := none }

/-- Literal properties written after the spread in `templates.fiction.rules.chapter.title`. -/
def fictionChapterTitle : Style := [("fontSize", "18pt"), ("marginTop", "1.5in")]

/-- Literal properties written after the spread in `templates.nonFiction.rules.chapter.title`. -/
def nonFictionChapterTitle : Style := [("fontSize", "16pt"), ("marginTop", "1in")]

/-- Literal properties written after the spread in `templates.nonFiction.rules.section.title`. -/
def nonFictionSectionTitle : Style := [("fontSize", "14pt"), ("marginTop", "0.75in")]

/-- A template entry of `this.templates`. -/
structure Template where
  name : String
  description : String
  rules : Rules
  deriving DecidableEq, Repr

/-- The entry `templates.fiction`. -/
def fiction : Template where
  name := "Fiction"
  description := "Standard fiction book formatting"
  rules :=
    { formattingRules with
      chapter := some
        { spreadChapter formattingRules.chapter with
          title := some (spread baseChapterTitle fictionChapterTitle) } }

/-- The entry `templates.nonFiction`. -/
def nonFiction : Template where
  name := "Non-Fiction"
  description := "Academic and non-fiction book formatting"
  rules :=
    { formattingRules with
      chapter := some
        { spreadChapter formattingRules.chapter with
          title := some (spread baseChapterTitle nonFictionChapterTitle) }
      «section» := some
        { spreadSection formattingRules.«section» with
          title := some (spread baseSectionTitle nonFictionSectionTitle) } }

/-- The nine categories of a rule set, by path. -/
inductive Category where
  | titlePageTitle
  | titlePageAuthor
  | chapterTitle
  | chapterFirstParagraph
  | chapterParagraph
  | sectionTitle
  | text
  | pageMargin
  | pageSize
  deriving DecidableEq, Repr

/-- The read of a category by its path, without throwing: `undefined` when a
step of the path is missing. -/
def Rules.category (r : Rules) : Category → Option Style
  | .titlePageTitle => r.titlePage.bind (·.title)
  | .titlePageAuthor => r.titlePage.bind (·.author)
  | .chapterTitle => r.chapter.bind (·.title)
  | .chapterFirstParagraph => r.chapter.bind (·.firstParagraph)
  | .chapterParagraph => r.chapter.bind (·.paragraph)
  | .sectionTitle => r.«section».bind (·.title)
  | .text => r.text
  | .pageMargin => r.page.bind (·.margin)
  | .pageSize => r.page.bind (·.size)

/-- The read `rules.<category>.<attribute>`, `undefined` when absent. -/
def Rules.attribute (r : Rules) (c : Category) (attr : String) : Option String :=
  (r.category c).bind (·.get attr)

/-- Keys of `this.templates`, in the order the constructor writes them. -/
inductive TemplateId where
  | fiction
  | nonFiction
  deriving DecidableEq, Repr

/-- The template stored under a key. -/
def TemplateId.template : TemplateId → Template
  | .fiction => Edipress.fiction
  | .nonFiction => Edipress.nonFiction

/-- The literal properties a template writes over the spread base, per category
(empty for a category the template does not mention). -/
def TemplateId.override : TemplateId → Category → Style
  | .fiction, .chapterTitle => fictionChapterTitle
  | .nonFiction, .chapterTitle => nonFictionChapterTitle
  | .nonFiction, .sectionTitle => nonFictionSectionTitle
  | _, _ => []

/-! ## Documents -/

/-- Element kinds the selectors of `applyFormatting` tell apart. -/
inductive Tag where
  | h1
  | h2
  | p
  | span
  | div
  | other (name : String)
  deriving DecidableEq, Repr

/-- An element of the parsed document: its tag, its text and its inline style. -/
structure Element where
  tag : Tag
  text : String
  style : Style
  deriving DecidableEq, Repr

/-- The parsed document: its elements in document order (the order in which
`querySelectorAll` lists them). -/
abbrev Document := List Element

/-- The selector `p, span, div`. -/
def Tag.isText : Tag → Bool
  | .p | .span | .div => true
  | _ => false

/-- The message of the `TypeError` raised by reading property `prop` of `undefined`. -/
def undefinedRead (prop : String) : String :=
  "Cannot read properties of undefined (reading \x27" ++ prop ++ "\x27)"

/-- The read `o.prop` made on a value `o` that may be `undefined`: the value
itself when defined, a `TypeError` naming `prop` otherwise. -/
def deref {α : Type} (o : Option α) (prop : String) : Except String α :=
  match o with
  | some a => .ok a
  | none => .error (undefinedRead prop)

/-- The loop `list.forEach(f)` over the elements a selector matches: the others
are left as they are, and the first throw ends the loop. -/
def forEach (sel : Tag → Bool) (f : Element → Except String Element) :
    Document → Except String Document
  | [] => .ok []
  | el :: rest =>
    if sel el.tag then
      match f el with
      | .error e => .error e
      | .ok el1 =>
        match forEach sel f rest with
        | .error e => .error e
        | .ok rest1 => .ok (el1 :: rest1)
    else
      match forEach sel f rest with
      | .error e => .error e
      | .ok rest1 => .ok (el :: rest1)

/-- The loop `list.forEach((el, index) => ...)`; `index` counts the matched
elements seen so far. -/
def forEachIdx (sel : Tag → Bool) (f : Element → Nat → Except String Element) :
    Nat → Document → Except String Document
  | _, [] => .ok []
  | index, el :: rest =>
    if sel el.tag then
      match f el index with
      | .error e => .error e
      | .ok el1 =>
        match forEachIdx sel f (index + 1) rest with
        | .error e => .error e
        | .ok rest1 => .ok (el1 :: rest1)
    else
      match forEachIdx sel f index rest with
      | .error e => .error e
      | .ok rest1 => .ok (el :: rest1)

/-- The part of a DOM implementation `applyFormatting` relies on: what the
assignment `element.style[k] = x` makes of the element's inline style, `x` being
a string or `undefined`. Nothing is assumed of it. -/
structure Dom where
  assign : Style → String → Option String → Style

/-- The loop of `Object.assign(style, source)` over the own properties of
`source`, in order, each written through the DOM's assignment. -/
def Dom.assignAll (dom : Dom) (target : Style) (source : Style) : Style :=
  source.foldl (fun acc kv => dom.assign acc kv.1 (some kv.2)) target

/-- The call `Object.assign(element.style, source)`; an `undefined` source is skipped. -/
def Dom.objectAssign (dom : Dom) (target : Style) : Option Style → Style
  | some source => dom.assignAll target source
  | none => target

/-- The three assignments of the first loop on a style `s`: fontFamily, fontSize
and color, each with the value read from `rules.text` (`undefined` when absent). -/
def Dom.textStyled (dom : Dom) (text : Style) (s : Style) : Style :=
  dom.assign (dom.assign (dom.assign s "fontFamily" (text.get "fontFamily")) "fontSize"
    (text.get "fontSize")) "color" (text.get "color")

/-- Callback of the first loop: the three assignments from `rules.text`. -/
def applyText (dom : Dom) (rules : Option Rules) (el : Element) : Except String Element := do
  let r ← deref rules "text"
  let text ← deref r.text "fontFamily"
  let s1 := dom.assign el.style "fontFamily" (text.get "fontFamily")
  let s2 := dom.assign s1 "fontSize" (text.get "fontSize")
  let s3 := dom.assign s2 "color" (text.get "color")
  pure { el with style := s3 }

/-- Callback of the second loop: `Object.assign(h1.style, rules.chapter.title)`. -/
def applyChapterTitle (dom : Dom) (rules : Option Rules) (el : Element) :
    Except String Element := do
  let r ← deref rules "chapter"
  let chapter ← deref r.chapter "title"
  pure { el with style := dom.objectAssign el.style chapter.title }

/-- Callback of the third loop: `Object.assign(h2.style, rules.section.title)`. -/
def applySectionTitle (dom : Dom) (rules : Option Rules) (el : Element) :
    Except String Element := do
  let r ← deref rules "section"
  let sec ← deref r.«section» "title"
  pure { el with style := dom.objectAssign el.style sec.title }

/-- Callback of the fourth loop: the paragraph at `index === 0` takes
`rules.chapter.firstParagraph`, every other one `rules.chapter.paragraph`. -/
def applyParagraph (dom : Dom) (rules : Option Rules) (el : Element) (index : Nat) :
    Except String Element :=
  if index = 0 then do
    let r ← deref rules "chapter"
    let chapter ← deref r.chapter "firstParagraph"
    pure { el with style := dom.objectAssign el.style chapter.firstParagraph }
  else do
    let r ← deref rules "chapter"
    let chapter ← deref r.chapter "paragraph"
    pure { el with style := dom.objectAssign el.style chapter.paragraph }

/-- The message of the `ReferenceError` that `new DOMParser()` throws when the
global scope has no `DOMParser`. -/
def domParserMissing : String := "DOMParser is not defined"

/-- The method `KDPFormatter.applyFormatting`. `DOMParser` is the global of that
name: without it `new DOMParser()` throws before anything else happens; with it
the html is parsed into `doc` and the four loops run in source order. `rules` is
`none` when the caller passes `undefined`. -/
def applyFormatting (DOMParser : Option Dom) (doc : Document) (rules : Option Rules) :
    Except String Document :=
  match DOMParser with
  | none => .error domParserMissing
  | some dom => do
    let d1 ← forEach Tag.isText (applyText dom rules) doc
    let d2 ← forEach (· = Tag.h1) (applyChapterTitle dom rules) d1
    let d3 ← forEach (· = Tag.h2) (applySectionTitle dom rules) d2
    forEachIdx (· = Tag.p) (applyParagraph dom rules) 0 d3

/-- The category the fourth loop assigns at paragraph index `index`. -/
def paragraphCategory (c : ChapterRules) (index : Nat) : Option Style :=
  if index = 0 then c.firstParagraph else c.paragraph

/-- What the four loops together do to one element, given the groups
`rules.text`, `rules.chapter`, `rules.section` and the element's paragraph index. -/
def styleElement (dom : Dom) (t : Style) (c : ChapterRules) (s : SectionRules) (index : Nat)
    (el : Element) : Element :=
  match el.tag with
  | .p => { el with
      style := dom.objectAssign (dom.textStyled t el.style) (paragraphCategory c index) }
  | .span => { el with style := dom.textStyled t el.style }
  | .div => { el with style := dom.textStyled t el.style }
  | .h1 => { el with style := dom.objectAssign el.style c.title }
  | .h2 => { el with style := dom.objectAssign el.style s.title }
  | .other _ => el

/-- What the first three loops together do to one element. -/
def afterTitles (dom : Dom) (t : Style) (c : ChapterRules) (s : SectionRules)
    (el : Element) : Element :=
  match el.tag with
  | .p => { el with style := dom.textStyled t el.style }
  | .span => { el with style := dom.textStyled t el.style }
  | .div => { el with style := dom.textStyled t el.style }
  | .h1 => { el with style := dom.objectAssign el.style c.title }
  | .h2 => { el with style := dom.objectAssign el.style s.title }
  | .other _ => el

/-- One pass over the document applying `styleElement`, counting paragraphs from `index`. -/
def formatted (dom : Dom) (t : Style) (c : ChapterRules) (s : SectionRules) :
    Nat → Document → Document
  | _, [] => []
  | index, el :: rest =>
    styleElement dom t c s index el ::
      formatted dom t c s (if el.tag = Tag.p then index + 1 else index) rest

/-- Number of `p` elements among the first `i` elements of the document: the
`index` the fourth loop passes for a paragraph at position `i`. -/
def paragraphIndex (doc : Document) (i : Nat) : Nat :=
  (doc.take i).countP (·.tag = Tag.p)

/-- Position of the nearest chapter heading before position `i`, if any. -/
def lastHeadingBefore (doc : Document) : Nat → Option Nat
  | 0 => none
  | i + 1 =>
    match doc[i]? with
    | some el => if el.tag = Tag.h1 then some i else lastHeadingBefore doc i
    | none => lastHeadingBefore doc i

/-- The flag `isFirstInChapter` as the specification words it: the element at
position `i` is a paragraph and no paragraph stands between it and the nearest
chapter heading before it (or the document start). -/
def isFirstInChapter (doc : Document) (i : Nat) : Bool :=
  match doc[i]? with
  | none => false
  | some el =>
    el.tag = Tag.p &&
      (match lastHeadingBefore doc i with
       | some j => paragraphIndex doc i == paragraphIndex doc (j + 1)
       | none => paragraphIndex doc i == 0)

/-- The scenario document `[h1 Ch.1, p A, p B, h1 Ch.2, p C]`. -/
def scenarioDoc : Document :=
  [ { tag := .h1, text := "Ch.1", style := [] },
    { tag := .p, text := "A", style := [] },
    { tag := .p, text := "B", style := [] },
    { tag := .h1, text := "Ch.2", style := [] },
    { tag := .p, text := "C", style := [] } ]

/-- A DOM double for concrete runs: an assigned string is stored under the
property name as given (an existing name keeps its place), and an assignment of
`undefined` leaves the style as it is. -/
def verbatimDom : Dom where
  assign := fun s key v =>
    match v with
    | some x => s.set key x
    | none => s

/-- The DOM keeps an inline style as a list of declarations and an assignment
writes declarations into it in place: what `style[k] = x` writes depends on `k`
and `x` only (`declarations k x`: nothing when the value is ignored, the
property under its canonical name with the value as serialised otherwise, the
longhands of a shorthand), an existing declaration is overwritten where it
stands and a new one is appended. -/
def Dom.storesDeclarations (dom : Dom) : Prop :=
  ∃ declarations : String → Option String → Style,
    ∀ s key v, dom.assign s key v = s.assignAll (declarations key v)

/-- The rule set lacks a category that a block present in the document requires:
`chapter.title` with an `h1`, `section.title` with an `h2`, `text`,
`chapter.firstParagraph` or `chapter.paragraph` with a `p`. -/
def lacksRequiredCategory (rules : Rules) (doc : Document) : Prop :=
  (rules.category .chapterTitle = none ∧ ∃ el ∈ doc, el.tag = Tag.h1) ∨
  (rules.category .sectionTitle = none ∧ ∃ el ∈ doc, el.tag = Tag.h2) ∨
  ((rules.category .text = none ∨ rules.category .chapterFirstParagraph = none ∨
      rules.category .chapterParagraph = none) ∧ ∃ el ∈ doc, el.tag = Tag.p)

/-! ## Numbers -/

/-- A JavaScript number (binary64). `finite negative m e` is `± m · 2 ^ e`, kept
canonical: `m` odd, or `m = 0` with `e = 0`. -/
inductive JSNumber where
  | nan
  | infinity (negative : Bool)
  | finite (negative : Bool) (mantissa : Nat) (exponent : Int)
  deriving DecidableEq, Repr

/-- Number of binary digits of `n`, by repeated halving (`fuel` bounds the steps). -/
def bitLengthAux : Nat → Nat → Nat
  | 0, _ => 0
  | fuel + 1, n => if n = 0 then 0 else bitLengthAux fuel (n / 2) + 1

/-- Number of binary digits of `n` (`0` for `0`). -/
def bitLength (n : Nat) : Nat := bitLengthAux n n

/-- Removal of trailing zero bits of a mantissa, raising the exponent. -/
def stripZeros : Nat → Nat → Int → Nat × Int
  | 0, m, e => (m, e)
  | fuel + 1, m, e =>
    if m ≠ 0 ∧ m % 2 = 0 then stripZeros fuel (m / 2) (e + 1) else (m, e)

/-- The canonical form of `± m · 2 ^ e`. -/
def JSNumber.canonical (negative : Bool) (m : Nat) (e : Int) : JSNumber :=
  if m = 0 then .finite negative 0 0
  else .finite negative (stripZeros m m e).1 (stripZeros m m e).2

/-- The natural number `n · 2 ^ k` for `k ≥ 0`, and `n` for `k < 0`. -/
def scaleUp (n : Nat) (k : Int) : Nat := n * 2 ^ k.toNat

/-- The binary64 value nearest to `± a / b` (`b > 0`), ties to even: 53
significant bits, least exponent `-1074`, overflow to infinity. -/
def roundBinary64 (negative : Bool) (a b : Nat) : JSNumber :=
  if a = 0 then .finite negative 0 0
  else
    let e0 : Int := (bitLength a : Int) - (bitLength b : Int)
    let e : Int := if scaleUp b e0 ≤ scaleUp a (-e0) then e0 else e0 - 1
    let q : Int := max (e - 52) (-1074)
    let num := scaleUp a (-q)
    let den := scaleUp b q
    let m0 := num / den
    let r := num % den
    let m := if 2 * r < den then m0
      else if den < 2 * r then m0 + 1
      else if m0 % 2 = 0 then m0 else m0 + 1
    if (1024 : Int) < (bitLength m : Int) + q then .infinity negative
    else JSNumber.canonical negative m q

/-- The number a natural-number literal of the source denotes. -/
def JSNumber.ofNat (n : Nat) : JSNumber := roundBinary64 false n 1

/-- The product `x * y` of two numbers. -/
def JSNumber.mul : JSNumber → JSNumber → JSNumber
  | .nan, _ => .nan
  | _, .nan => .nan
  | .infinity s1, .infinity s2 => .infinity (xor s1 s2)
  | .infinity s1, .finite s2 m _ => if m = 0 then .nan else .infinity (xor s1 s2)
  | .finite s1 m _, .infinity s2 => if m = 0 then .nan else .infinity (xor s1 s2)
  | .finite s1 m1 e1, .finite s2 m2 e2 =>
    roundBinary64 (xor s1 s2) (scaleUp (m1 * m2) (e1 + e2)) (scaleUp 1 (-(e1 + e2)))

/-- Whether the number is a whole number. -/
def JSNumber.isInteger : JSNumber → Bool
  | .finite _ _ e => decide (0 ≤ e)
  | _ => false

/-- The characters `parseFloat` skips at the start (white space and line terminators). -/
def isStrWhiteSpace (c : Char) : Bool :=
  let n := c.toNat
  n = 9 || n = 10 || n = 11 || n = 12 || n = 13 || n = 32 || n = 160 || n = 5760 ||
    (8192 ≤ n && n ≤ 8202) || n = 8232 || n = 8233 || n = 8239 || n = 8287 ||
    n = 12288 || n = 65279

/-- The decimal digits `0` to `9`. -/
def isDecimalDigit (c : Char) : Bool := 48 ≤ c.toNat && c.toNat ≤ 57

/-- The value of a run of decimal digits. -/
def digitsValue (ds : List Char) : Nat :=
  ds.foldl (fun n c => 10 * n + (c.toNat - 48)) 0

/-- An optional sign at the head of the input. -/
def takeSign : List Char → Bool × List Char
  | '-' :: rest => (true, rest)
  | '+' :: rest => (false, rest)
  | cs => (false, cs)

/-- The exponent part `e`, `e+` or `e-` followed by digits, if the input starts
with one; `0` otherwise (an `e` without digits is not part of the number). -/
def exponentPart : List Char → Int
  | [] => 0
  | c :: rest =>
    if c = 'e' ∨ c = 'E' then
      let signed := takeSign rest
      let ds := signed.2.takeWhile isDecimalDigit
      if ds = [] then 0
      else if signed.1 then -(digitsValue ds : Int) else (digitsValue ds : Int)
    else 0

/-- The digits of the fraction, when the input starts with a point. -/
def fractionDigits : List Char → List Char
  | '.' :: rest => rest.takeWhile isDecimalDigit
  | _ => []

/-- The input after the point and the digits of the fraction, when it starts with a point. -/
def afterFraction : List Char → List Char
  | '.' :: rest => rest.dropWhile isDecimalDigit
  | cs => cs

/-- The number denoted by the longest prefix of `cs` that is a `StrDecimalLiteral`,
`NaN` when there is none. -/
def parseDecimalPrefix (cs : List Char) : JSNumber :=
  let signed := takeSign cs
  let body := signed.2
  if "Infinity".toList.isPrefixOf body then .infinity signed.1
  else
    let intDigits := body.takeWhile isDecimalDigit
    let afterInt := body.dropWhile isDecimalDigit
    let fracDigits := fractionDigits afterInt
    let afterFrac := afterFraction afterInt
    if intDigits = [] ∧ fracDigits = [] then .nan
    else
      let e10 : Int := exponentPart afterFrac - (fracDigits.length : Int)
      let n := digitsValue (intDigits ++ fracDigits)
      roundBinary64 signed.1 (n * 10 ^ e10.toNat) (10 ^ (-e10).toNat)

/-- The global `parseFloat`, applied to a value that is a string or `undefined`
(`undefined` is first converted to the string `undefined`). -/
def parseFloat (arg : Option String) : JSNumber :=
  parseDecimalPrefix ((arg.getD "undefined").toList.dropWhile isStrWhiteSpace)

/-- The expression `parseFloat(x) * 72` of `generatePdf`. -/
def toPoints (arg : Option String) : JSNumber :=
  (parseFloat arg).mul (JSNumber.ofNat 72)

/-! ## `generatePdf` -/

/-- A rule of the stylesheet `generatePdf` writes: selector and declarations. -/
structure CssRule where
  selector : String
  declarations : List (String × String)
  deriving DecidableEq, Repr

/-- Interpolation of a value in a template literal; `undefined` prints as `undefined`. -/
def interpolate (v : Option String) : String := v.getD "undefined"

/-- The `<style>` block of the template literal `tempHtml`. The reads happen in
the order of the literal; a read through a missing object throws. -/
def styleSheet (rules : Option Rules) : Except String (List CssRule) := do
  let r ← deref rules "page"
  let page ← deref r.page "size"
  let size ← deref page.size "width"
  let margin ← deref page.margin "top"
  let text ← deref r.text "fontFamily"
  let chapter ← deref r.chapter "paragraph"
  let paragraph ← deref chapter.paragraph "lineHeight"
  let title ← deref chapter.title "fontSize"
  let sec ← deref r.«section» "title"
  let secTitle ← deref sec.title "fontSize"
  let first ← deref chapter.firstParagraph "textIndent"
  pure [
    { selector := "@page"
      declarations := [
        ("size", interpolate (size.get "width") ++ " " ++ interpolate (size.get "height")),
        ("margin", interpolate (margin.get "top") ++ " " ++ interpolate (margin.get "right")
          ++ " " ++ interpolate (margin.get "bottom") ++ " "
          ++ interpolate (margin.get "left"))] },
    { selector := "body"
      declarations := [
        ("font-family", interpolate (text.get "fontFamily")),
        ("font-size", interpolate (text.get "fontSize")),
        ("color", interpolate (text.get "color")),
        ("line-height", interpolate (paragraph.get "lineHeight")),
        ("margin", "0"),
        ("padding", "0")] },
    { selector := "h1"
      declarations := [
        ("font-size", interpolate (title.get "fontSize")),
        ("font-weight", interpolate (title.get "fontWeight")),
        ("text-align", interpolate (title.get "textAlign")),
        ("margin-top", interpolate (title.get "marginTop")),
        ("margin-bottom", interpolate (title.get "marginBottom")),
        ("page-break-before", interpolate (title.get "pageBreakBefore"))] },
    { selector := "h2"
      declarations := [
        ("font-size", interpolate (secTitle.get "fontSize")),
        ("font-weight", interpolate (secTitle.get "fontWeight")),
        ("margin-top", interpolate (secTitle.get "marginTop")),
        ("margin-bottom", interpolate (secTitle.get "marginBottom"))] },
    { selector := "p:first-of-type"
      declarations := [
        ("text-indent", interpolate (first.get "textIndent")),
        ("margin-top", interpolate (first.get "marginTop"))] },
    { selector := "p"
      declarations := [
        ("text-indent", interpolate (paragraph.get "textIndent")),
        ("margin-bottom", interpolate (paragraph.get "marginBottom")),
        ("orphans", interpolate (paragraph.get "orphans")),
        ("widows", interpolate (paragraph.get "widows"))] } ]

/-- The page constraints given to `page.pdf` (`printBackground` is constantly true). -/
structure PdfOptions where
  width : JSNumber
  height : JSNumber
  top : JSNumber
  right : JSNumber
  bottom : JSNumber
  left : JSNumber
  deriving DecidableEq, Repr

/-- The argument object of `page.pdf`, its properties evaluated in source order. -/
def pdfOptions (rules : Option Rules) : Except String PdfOptions := do
  let r ← deref rules "page"
  let page ← deref r.page "size"
  let size ← deref page.size "width"
  let margin ← deref page.margin "top"
  pure {
    width := toPoints (size.get "width")
    height := toPoints (size.get "height")
    top := toPoints (margin.get "top")
    right := toPoints (margin.get "right")
    bottom := toPoints (margin.get "bottom")
    left := toPoints (margin.get "left") }

/-- An artifact returned by a renderer. -/
abbrev Buffer := List Nat

/-- Calls `generatePdf` makes to the file system and to the browser. -/
inductive Event where
  | mkdir
  | writeFile (sheet : List CssRule) (body : Document)
  | launch
  | newPage
  | goto
  | pdf (options : PdfOptions)
  | close
  | unlink
  deriving DecidableEq, Repr

/-- Outcomes of the calls `generatePdf` awaits (each is made at most once in a run). -/
structure Engine where
  mkdir : Except String Unit
  writeFile : Except String Unit
  launch : Except String Unit
  newPage : Except String Unit
  goto : Except String Unit
  pdf : PdfOptions → Except String Buffer
  close : Except String Unit
  unlink : Except String Unit

/-- The inner `try` block: `newPage`, `goto`, `pdf`; its completion and the calls made. -/
def tryBlock (env : Engine) (rules : Option Rules) : Except String Buffer × List Event :=
  match env.newPage with
  | .error e => (.error e, [.newPage])
  | .ok _ =>
    match env.goto with
    | .error e => (.error e, [.newPage, .goto])
    | .ok _ =>
      match pdfOptions rules with
      | .error e => (.error e, [.newPage, .goto])
      | .ok options => (env.pdf options, [.newPage, .goto, .pdf options])

/-- The `finally` block, entered with the completion of the `try` block: a throw
of `browser.close()` replaces that completion and skips the unlink; a rejected
unlink is caught and dropped. -/
def finallyBlock (env : Engine) (completion : Except String Buffer) :
    Except String Buffer × List Event :=
  match env.close with
  | .error e => (.error e, [.close])
  | .ok _ => (completion, [.close, .unlink])

/-- The outer `try` block of `generatePdf`. -/
def generatePdfBody (env : Engine) (html : Document) (rules : Option Rules) :
    Except String Buffer × List Event :=
  match styleSheet rules with
  | .error e => (.error e, [])
  | .ok sheet =>
    match env.mkdir with
    | .error e => (.error e, [.mkdir])
    | .ok _ =>
      match env.writeFile with
      | .error e => (.error e, [.mkdir, .writeFile sheet html])
      | .ok _ =>
        match env.launch with
        | .error e => (.error e, [.mkdir, .writeFile sheet html, .launch])
        | .ok _ =>
          let body := tryBlock env rules
          let cleanup := finallyBlock env body.1
          (cleanup.1, [.mkdir, .writeFile sheet html, .launch] ++ body.2 ++ cleanup.2)

/-- The method `KDPFormatter.generatePdf`: its result (a thrown error is rewrapped by the
outer `catch`) and the calls it made, in order. -/
def generatePdf (env : Engine) (html : Document) (rules : Option Rules) :
    Except String Buffer × List Event :=
  ((generatePdfBody env html rules).1.mapError ("PDF generation failed: " ++ ·),
    (generatePdfBody env html rules).2)

/-- The six dimension strings `generatePdf` converts, in the order of the
argument of `page.pdf`: width, height, top, right, bottom, left. -/
def pageDimensions (size margin : Style) : List (Option String) :=
  [size.get "width", size.get "height", margin.get "top", margin.get "right",
    margin.get "bottom", margin.get "left"]

/-- The six numbers of the argument of `page.pdf`, in the same order. -/
def PdfOptions.toList (o : PdfOptions) : List JSNumber :=
  [o.width, o.height, o.top, o.right, o.bottom, o.left]

/-- A rule set for concrete runs of `generatePdf`: the base rules with the given
page margins and page size. -/
def rulesWithPage (margin size : Style) : Rules :=
  { formattingRules with page := some { margin := some margin, size := some size } }

/-! ## `formatDocument` -/

/-- What `this.templates[key]` evaluates to. -/
inductive Lookup where
  | template (t : Template)
  | inherited
  | undefined
  deriving DecidableEq, Repr

/-- Property names every object literal inherits from `Object.prototype`. -/
def objectPrototypeKeys : List String :=
  ["constructor", "__defineGetter__", "__defineSetter__", "hasOwnProperty",
    "__lookupGetter__", "__lookupSetter__", "isPrototypeOf", "propertyIsEnumerable",
    "toString", "valueOf", "__proto__", "toLocaleString"]

/-- The read `this.templates[key]`: an own key gives its template, a key of
`Object.prototype` gives the inherited member, any other key `undefined`. -/
def templatesGet (key : String) : Lookup :=
  if key = "fiction" then .template fiction
  else if key = "nonFiction" then .template nonFiction
  else if key ∈ objectPrototypeKeys then .inherited
  else .undefined

/-- The rules `formatDocument` formats with: the parameter default `fiction` when
`templateName` is `undefined`, then `this.templates[templateName] ||
this.templates.fiction`, then `.rules` (an inherited member is truthy and has no
`rules`). -/
def selectRules (templateName : Option String) : Option Rules :=
  match templatesGet (templateName.getD "fiction") with
  | .template t => some t.rules
  | .inherited => none
  | .undefined => some fiction.rules

/-- The surroundings of `formatDocument`: the html `mammoth.convertToHtml` yields
(as the document it denotes), the global `DOMParser`, the DOCX serializer and
the browser. -/
structure Collaborators where
  convertToHtml : Except String Document
  DOMParser : Option Dom
  asBlob : Document → Except String Buffer
  engine : Engine

/-- The method `KDPFormatter.generateDocx`. -/
def generateDocx (env : Collaborators) (html : Document) : Except String Buffer :=
  (env.asBlob html).mapError ("DOCX generation failed: " ++ ·)

/-- The pair `formatDocument` returns. -/
structure Artifacts where
  docx : Buffer
  pdf : Buffer
  deriving DecidableEq, Repr

/-- The `try` block of `formatDocument`. -/
def formatDocumentBody (env : Collaborators) (templateName : Option String) :
    Except String Artifacts := do
  let html ← env.convertToHtml
  let rules := selectRules templateName
  let formattedHtml ← applyFormatting env.DOMParser html rules
  let docxBuffer ← generateDocx env formattedHtml
  let pdfBuffer ← (generatePdf env.engine formattedHtml rules).1
  pure { docx := docxBuffer, pdf := pdfBuffer }

/-- The method `KDPFormatter.formatDocument`: any throw of the body is rewrapped. -/
def formatDocument (env : Collaborators) (templateName : Option String) :
    Except String Artifacts :=
  (formatDocumentBody env templateName).mapError ("Document formatting failed: " ++ ·)

/-- A browser all of whose calls succeed. -/
def okEngine : Engine where
  mkdir := .ok ()
  writeFile := .ok ()
  launch := .ok ()
  newPage := .ok ()
  goto := .ok ()
  pdf := fun _ => .ok [37, 80, 68, 70]
  close := .ok ()
  unlink := .ok ()

/-- The service as `index.js` starts it, with library calls that all succeed: the
source decodes to the scenario document and the global scope has no `DOMParser`. -/
def nodeCollaborators : Collaborators where
  convertToHtml := .ok scenarioDoc
  DOMParser := none
  asBlob := fun _ => .ok [80, 75]
  engine := okEngine

/-! ## `getAvailableTemplates` -/

/-- The own properties of `this.templates`, in the order the constructor writes
them: the value of `Object.entries(this.templates)`. -/
def templates : List (String × Template) :=
  [("fiction", fiction), ("nonFiction", nonFiction)]

/-- An entry of the list `getAvailableTemplates` returns. -/
structure TemplateInfo where
  id : String
  name : String
  description : String
  deriving DecidableEq, Repr

/-- The method `KDPFormatter.getAvailableTemplates`. -/
def getAvailableTemplates : List TemplateInfo :=
  templates.map (fun entry =>
    { id := entry.1, name := entry.2.name, description := entry.2.description })

/-- A browser in which `goto` and `close` both fail. -/
def failingEngine : Engine :=
  { okEngine with goto := .error "navigation failed", close := .error "close failed" }

/-! ## Theorems -/

theorem Style.get_set (s : Style) (k v key : String) :
    (s.set k v).get key = if k = key then some v else s.get key := by
  induction s with
  | nil => simp [Style.set, Style.get]
  | cons hd tl ih =>
    obtain ⟨k0, v0⟩ := hd
    by_cases h : k0 = k
    · subst h
      by_cases h2 : k0 = key <;> simp [Style.set, Style.get, h2]
    · by_cases h2 : k0 = key
      · subst h2
        simp [Style.set, Style.get, h, Ne.symm h]
      · simp [Style.set, Style.get, h, h2, ih]

theorem Style.get_append (s1 s2 : Style) (key : String) :
    Style.get (s1 ++ s2) key = (Style.get s1 key).orElse (fun _ => Style.get s2 key) := by
  induction s1 with
  | nil => simp [Style.get]
  | cons hd tl ih =>
    obtain ⟨k0, v0⟩ := hd
    by_cases h : k0 = key <;> simp [Style.get, h, ih]

theorem Style.get_assignAll (target source : Style) (key : String) :
    (target.assignAll source).get key =
      (Style.get source.reverse key).orElse (fun _ => target.get key) := by
  induction source generalizing target with
  | nil => simp [Style.assignAll, Style.get]
  | cons hd tl ih =>
    obtain ⟨k0, v0⟩ := hd
    have h := ih (target.set k0 v0)
    simp only [Style.assignAll, List.foldl_cons] at h ⊢
    rw [h, List.reverse_cons, Style.get_append, Style.get_set]
    cases Style.get tl.reverse key <;> by_cases hk : k0 = key <;> simp [Style.get, hk]

theorem Style.get_eq_none_iff (s : Style) (key : String) :
    s.get key = none ↔ ∀ kv ∈ s, kv.1 ≠ key := by
  induction s with
  | nil => simp [Style.get]
  | cons hd tl ih =>
    obtain ⟨k0, v0⟩ := hd
    by_cases h : k0 = key <;> simp [Style.get, h, ih]

theorem Style.get_reverse_eq_none (s : Style) (key : String) (h : s.get key = none) :
    Style.get s.reverse key = none := by
  rw [Style.get_eq_none_iff] at h ⊢
  intro kv hkv
  exact h kv (List.mem_reverse.mp hkv)

theorem Style.set_set (s : Style) (k v w : String) : (s.set k w).set k v = s.set k v := by
  induction s with
  | nil => simp [Style.set]
  | cons hd tl ih =>
    obtain ⟨k0, v0⟩ := hd
    by_cases h : k0 = k <;> simp [Style.set, h, ih]

theorem Style.set_comm (s : Style) (k v k1 v1 : String) (hne : k ≠ k1)
    (hpres : s.get k ≠ none) : (s.set k v).set k1 v1 = (s.set k1 v1).set k v := by
  induction s with
  | nil => simp [Style.get] at hpres
  | cons hd tl ih =>
    obtain ⟨k0, v0⟩ := hd
    by_cases h : k0 = k
    · subst h
      simp [Style.set, hne]
    · have hp : Style.get tl k ≠ none := by simpa [Style.get, h] using hpres
      by_cases h1 : k0 = k1
      · subst h1
        simp [Style.set, h]
      · simp [Style.set, h, h1, ih hp]

theorem Style.set_of_get (s : Style) (k v : String) (h : s.get k = some v) : s.set k v = s := by
  induction s with
  | nil => simp [Style.get] at h
  | cons hd tl ih =>
    obtain ⟨k0, v0⟩ := hd
    by_cases h0 : k0 = k
    · subst h0
      simp [Style.get] at h
      simp [Style.set, h]
    · simp [Style.get, h0] at h
      simp [Style.set, h0, ih h]

theorem Style.assignAll_cons (t : Style) (k v : String) (rest : Style) :
    t.assignAll ((k, v) :: rest) = (t.set k v).assignAll rest := rfl

theorem Style.assignAll_set_of_mem (src X : Style) (k v : String)
    (hk : Style.get src k ≠ none) (hpres : X.get k ≠ none) :
    (X.set k v).assignAll src = X.assignAll src := by
  induction src generalizing X with
  | nil => simp [Style.get] at hk
  | cons hd rest ih =>
    obtain ⟨k2, v2⟩ := hd
    rw [Style.assignAll_cons, Style.assignAll_cons]
    by_cases h2 : k2 = k
    · subst h2
      rw [Style.set_set]
    · have hk1 : Style.get rest k ≠ none := by simpa [Style.get, h2] using hk
      have hne : k ≠ k2 := fun hh => h2 hh.symm
      rw [Style.set_comm X k v k2 v2 hne hpres]
      apply ih _ hk1
      rw [Style.get_set]
      simpa [h2] using hpres

theorem Style.assignAll_fixed (src t : Style) (hpres : ∀ kv ∈ src, t.get kv.1 ≠ none)
    (hval : ∀ k v, Style.get src.reverse k = some v → t.get k = some v) :
    t.assignAll src = t := by
  induction src generalizing t with
  | nil => rfl
  | cons hd rest ih =>
    obtain ⟨k, v⟩ := hd
    rw [Style.assignAll_cons]
    have hpres1 : ∀ kv ∈ rest, t.get kv.1 ≠ none :=
      fun kv hm => hpres kv (List.mem_cons_of_mem _ hm)
    have hval1 : ∀ k1 v1, Style.get rest.reverse k1 = some v1 → t.get k1 = some v1 := by
      intro k1 v1 h1
      apply hval
      rw [List.reverse_cons, Style.get_append, h1]
      rfl
    have hstep : (t.set k v).assignAll rest = t.assignAll rest := by
      by_cases hr : Style.get rest k = none
      · have hrev : Style.get rest.reverse k = none := Style.get_reverse_eq_none rest k hr
        have htk : t.get k = some v := by
          apply hval
          rw [List.reverse_cons, Style.get_append, hrev]
          simp [Style.get]
        rw [Style.set_of_get t k v htk]
      · exact Style.assignAll_set_of_mem rest t k v hr (hpres (k, v) (List.mem_cons_self _ _))
    rw [hstep]
    exact ih t hpres1 hval1

theorem Style.get_ne_none_of_mem (s : Style) (kv : String × String) (h : kv ∈ s) :
    s.get kv.1 ≠ none := by
  intro hn
  exact (Style.get_eq_none_iff s kv.1).mp hn kv h rfl

theorem Style.assignAll_idem (s src : Style) :
    (s.assignAll src).assignAll src = s.assignAll src := by
  apply Style.assignAll_fixed
  · intro kv hm
    rw [Style.get_assignAll]
    have h1 : Style.get src.reverse kv.1 ≠ none :=
      Style.get_ne_none_of_mem src.reverse kv (List.mem_reverse.mpr hm)
    cases h2 : Style.get src.reverse kv.1 with
    | none => exact absurd h2 h1
    | some x => simp
  · intro k v h1
    rw [Style.get_assignAll, h1]
    rfl

/-- C3: in both built-in templates, for every category and every attribute, the
template reads the literal written over the spread when there is one and the
base `formattingRules` value otherwise; fiction's `chapter.title` has fontSize
18pt and marginTop 1.5in and inherits fontWeight, textAlign, marginBottom and
pageBreakBefore; the categories and groups fiction does not mention (titlePage,
section, text, page, chapter.firstParagraph, chapter.paragraph) equal the base. -/
theorem template_rules_override_or_base :
    (∀ (id : TemplateId) (c : Category) (attr : String),
      id.template.rules.attribute c attr =
        ((id.override c).get attr).orElse (fun _ => formattingRules.attribute c attr)) ∧
    fiction.rules.attribute .chapterTitle "fontSize" = some "18pt" ∧
    fiction.rules.attribute .chapterTitle "marginTop" = some "1.5in" ∧
    fiction.rules.attribute .chapterTitle "fontWeight" = some "bold" ∧
    fiction.rules.attribute .chapterTitle "textAlign" = some "center" ∧
    fiction.rules.attribute .chapterTitle "marginBottom" = some "0.5in" ∧
    fiction.rules.attribute .chapterTitle "pageBreakBefore" = some "always" ∧
    fiction.rules.category .titlePageTitle = formattingRules.category .titlePageTitle ∧
    fiction.rules.category .titlePageAuthor = formattingRules.category .titlePageAuthor ∧
    fiction.rules.category .sectionTitle = formattingRules.category .sectionTitle ∧
    fiction.rules.category .text = formattingRules.category .text ∧
    fiction.rules.category .pageMargin = formattingRules.category .pageMargin ∧
    fiction.rules.category .pageSize = formattingRules.category .pageSize ∧
    fiction.rules.category .chapterFirstParagraph =
      formattingRules.category .chapterFirstParagraph ∧
    fiction.rules.category .chapterParagraph = formattingRules.category .chapterParagraph ∧
    fiction.rules.titlePage = formattingRules.titlePage ∧
    fiction.rules.«section» = formattingRules.«section» ∧
    fiction.rules.text = formattingRules.text ∧
    fiction.rules.page = formattingRules.page := by
  refine ⟨?_, by decide, by decide, by decide, by decide, by decide, by decide, rfl, rfl, rfl,
    rfl, rfl, rfl, rfl, rfl, rfl, rfl, rfl, rfl⟩
  intro id c attr
  have key : ∀ (base : Option Style) (lit : Style),
      Style.get lit.reverse attr = lit.get attr →
      (some (spread base lit)).bind (·.get attr) =
        (lit.get attr).orElse (fun _ => base.bind (·.get attr)) := by
    intro base lit hrev
    cases base <;> simp [spread, Style.get_assignAll, hrev, Style.get]
  have hrev : ∀ (k1 v1 k2 v2 : String), k1 ≠ k2 →
      Style.get [(k1, v1), (k2, v2)].reverse attr = Style.get [(k1, v1), (k2, v2)] attr := by
    intro k1 v1 k2 v2 hne
    by_cases h1 : k1 = attr <;> by_cases h2 : k2 = attr <;> simp [Style.get, h1, h2]
    exact absurd (h1.trans h2.symm) hne
  cases id <;> cases c <;>
    first
    | exact key baseChapterTitle fictionChapterTitle (hrev _ _ _ _ (by decide))
    | exact key baseChapterTitle nonFictionChapterTitle (hrev _ _ _ _ (by decide))
    | exact key baseSectionTitle nonFictionSectionTitle (hrev _ _ _ _ (by decide))
    | (simp only [TemplateId.override, Style.get, Option.orElse]; rfl)

/-- C12 (failure of the claim as stated): fiction's `chapter.title` is neither
the literal written over the spread as a whole nor the base category as a
whole: it takes fontSize from the literal and fontWeight from the base. -/
theorem fiction_chapter_title_is_mixed :
    fiction.rules.category .chapterTitle ≠ some (TemplateId.fiction.override .chapterTitle) ∧
    fiction.rules.category .chapterTitle ≠ formattingRules.category .chapterTitle ∧
    fiction.rules.attribute .chapterTitle "fontSize" =
      (TemplateId.fiction.override .chapterTitle).get "fontSize" ∧
    fiction.rules.attribute .chapterTitle "fontSize" ≠
      formattingRules.attribute .chapterTitle "fontSize" ∧
    (TemplateId.fiction.override .chapterTitle).get "fontWeight" = none ∧
    fiction.rules.attribute .chapterTitle "fontWeight" =
      formattingRules.attribute .chapterTitle "fontWeight" ∧
    fiction.rules.attribute .chapterTitle "fontWeight" = some "bold" := by
  decide

/-- C12 (amended): reading a category of a built-in template yields the base
category as a whole when the template writes nothing over it, and otherwise the
base category with the written attributes replaced, attribute by attribute;
nonFiction's `section.title` mixes marginTop 0.75in with the base fontWeight,
and nonFiction's `chapter.title`, whose written values repeat the base, equals
the base category. -/
theorem template_category_merge :
    (∀ (id : TemplateId) (c : Category),
      id.template.rules.category c =
        if id.override c = [] then formattingRules.category c
        else some (spread (formattingRules.category c) (id.override c))) ∧
    nonFiction.rules.attribute .sectionTitle "marginTop" = some "0.75in" ∧
    nonFiction.rules.attribute .sectionTitle "fontWeight" = some "bold" ∧
    (TemplateId.nonFiction.override .sectionTitle).get "fontWeight" = none ∧
    nonFiction.rules.category .chapterTitle = formattingRules.category .chapterTitle := by
  refine ⟨?_, by decide, by decide, by decide, by decide⟩
  intro id c
  cases id <;> cases c <;> decide

/-- C13: `getAvailableTemplates` returns one entry per own key of
`this.templates`, in the order fiction, nonFiction; the id of an entry is the
key, its name and description are those of the template under that key, and an
entry has no other field. -/
theorem getAvailableTemplates_entries :
    getAvailableTemplates =
      [{ id := "fiction", name := "Fiction",
         description := "Standard fiction book formatting" },
       { id := "nonFiction", name := "Non-Fiction",
         description := "Academic and non-fiction book formatting" }] ∧
    getAvailableTemplates.map (·.id) = templates.map (·.1) ∧
    getAvailableTemplates.length = templates.length ∧
    (getAvailableTemplates.map (·.id)).Nodup ∧
    (∀ info ∈ getAvailableTemplates, ∃ t, templatesGet info.id = .template t ∧
      info.name = t.name ∧ info.description = t.description) ∧
    (∀ key : String, (∃ t, templatesGet key = .template t) ↔
      key ∈ getAvailableTemplates.map (·.id)) := by
  refine ⟨by decide, by decide, by decide, by decide, ?_, ?_⟩
  · intro info hinfo
    have h : info = ⟨"fiction", "Fiction", "Standard fiction book formatting"⟩ ∨
        info = ⟨"nonFiction", "Non-Fiction", "Academic and non-fiction book formatting"⟩ := by
      simpa [getAvailableTemplates, templates, fiction, nonFiction] using hinfo
    rcases h with h | h
    · subst h
      exact ⟨fiction, by decide, rfl, rfl⟩
    · subst h
      exact ⟨nonFiction, by decide, rfl, rfl⟩
  · intro key
    have hids : getAvailableTemplates.map (·.id) = ["fiction", "nonFiction"] := by decide
    rw [hids]
    by_cases h1 : key = "fiction"
    · subst h1
      simp [templatesGet]
    · by_cases h2 : key = "nonFiction"
      · subst h2
        simp [templatesGet]
      · by_cases h3 : key ∈ objectPrototypeKeys <;> simp [templatesGet, h1, h2, h3]

/-- C4: `parseFloat(x) * 72` turns `1in` into 72, `0.75in` into 54 and `6in` into
432; for both built-in templates the options of `page.pdf` are width 432,
height 648 and four margins of 54, and no other options reach the engine. -/
theorem page_constraints_builtin :
    toPoints (some "1in") = JSNumber.ofNat 72 ∧
    toPoints (some "0.75in") = JSNumber.ofNat 54 ∧
    toPoints (some "6in") = JSNumber.ofNat 432 ∧
    JSNumber.ofNat 72 = .finite false 9 3 ∧
    JSNumber.ofNat 54 = .finite false 27 1 ∧
    JSNumber.ofNat 432 = .finite false 27 4 ∧
    ∀ id : TemplateId,
      pdfOptions (some id.template.rules) = .ok
        { width := JSNumber.ofNat 432, height := JSNumber.ofNat 648,
          top := JSNumber.ofNat 54, right := JSNumber.ofNat 54,
          bottom := JSNumber.ofNat 54, left := JSNumber.ofNat 54 } ∧
      Event.pdf
        { width := JSNumber.ofNat 432, height := JSNumber.ofNat 648,
          top := JSNumber.ofNat 54, right := JSNumber.ofNat 54,
          bottom := JSNumber.ofNat 54, left := JSNumber.ofNat 54 } ∈
        (generatePdf okEngine scenarioDoc (some id.template.rules)).2 ∧
      ∀ (env : Engine) (html : Document) (options : PdfOptions),
        Event.pdf options ∈ (generatePdf env html (some id.template.rules)).2 →
        options =
          { width := JSNumber.ofNat 432, height := JSNumber.ofNat 648,
            top := JSNumber.ofNat 54, right := JSNumber.ofNat 54,
            bottom := JSNumber.ofNat 54, left := JSNumber.ofNat 54 } := by
  refine ⟨by decide, by decide, by decide, by decide, by decide, by decide, ?_⟩
  intro id
  have hopt : pdfOptions (some id.template.rules) = .ok
      { width := JSNumber.ofNat 432, height := JSNumber.ofNat 648,
        top := JSNumber.ofNat 54, right := JSNumber.ofNat 54,
        bottom := JSNumber.ofNat 54, left := JSNumber.ofNat 54 } := by
    cases id <;> rfl
  refine ⟨hopt, by cases id <;> decide, ?_⟩
  intro env html options hmem
  simp only [generatePdf, generatePdfBody] at hmem
  cases hsheet : styleSheet (some id.template.rules) with
  | error e => simp [hsheet] at hmem
  | ok sheet =>
    cases hmk : env.mkdir <;> cases hwf : env.writeFile <;> cases hla : env.launch <;>
      simp [hsheet, hmk, hwf, hla] at hmem
    cases hnp : env.newPage <;> cases hgo : env.goto <;> cases hcl : env.close <;>
      simp [tryBlock, finallyBlock, hnp, hgo, hcl, hopt] at hmem
    all_goals exact hmem

theorem tryBlock_no_close (env : Engine) (rules : Option Rules) :
    Event.close ∉ (tryBlock env rules).2 := by
  unfold tryBlock
  cases env.newPage <;> cases env.goto <;> cases pdfOptions rules <;> simp

theorem finallyBlock_trace (env : Engine) (completion : Except String Buffer) :
    ∃ after, (finallyBlock env completion).2 = Event.close :: after ∧ Event.close ∉ after := by
  unfold finallyBlock
  cases env.close with
  | error e => exact ⟨[], rfl, by simp⟩
  | ok u => exact ⟨[Event.unlink], rfl, by simp⟩

/-- C8: in every run of `generatePdf` in which `puppeteer.launch` is called and
succeeds, `browser.close` is called exactly once, after the launch and before
`generatePdf` returns or throws, whatever `newPage`, `goto` and `pdf` do. -/
theorem generatePdf_closes_once (env : Engine) (html : Document) (rules : Option Rules)
    (hl : env.launch = .ok ()) (hin : Event.launch ∈ (generatePdf env html rules).2) :
    (generatePdf env html rules).2.count Event.close = 1 ∧
    ∃ before after, (generatePdf env html rules).2 = before ++ Event.close :: after ∧
      Event.launch ∈ before ∧ Event.close ∉ before ∧ Event.close ∉ after := by
  have key : ∃ before after, (generatePdf env html rules).2 = before ++ Event.close :: after ∧
      Event.launch ∈ before ∧ Event.close ∉ before ∧ Event.close ∉ after := by
    simp only [generatePdf, generatePdfBody] at hin ⊢
    cases hsheet : styleSheet rules with
    | error e => simp [hsheet] at hin
    | ok sheet =>
      cases hmk : env.mkdir with
      | error e => simp [hsheet, hmk] at hin
      | ok u1 =>
        cases hwf : env.writeFile with
        | error e => simp [hsheet, hmk, hwf] at hin
        | ok u2 =>
          obtain ⟨after, hafter, hnot⟩ := finallyBlock_trace env (tryBlock env rules).1
          refine ⟨[.mkdir, .writeFile sheet html, .launch] ++ (tryBlock env rules).2, after,
            ?_, ?_, ?_, hnot⟩
          · simp [hl, hafter]
          · simp
          · have h := tryBlock_no_close env rules
            simp [h]
  refine ⟨?_, key⟩
  obtain ⟨before, after, heq, _, hb, ha⟩ := key
  rw [heq, List.count_append, List.count_cons_self, List.count_eq_zero_of_not_mem hb,
    List.count_eq_zero_of_not_mem ha]

/-- Witness for C8: a run in which `goto` fails after a successful launch. -/
theorem generatePdf_closes_once_witness :
    (generatePdf { okEngine with goto := .error "net::ERR_FILE_NOT_FOUND" } scenarioDoc
        (some fiction.rules)).2.count Event.close = 1 ∧
    ∃ before after,
      (generatePdf { okEngine with goto := .error "net::ERR_FILE_NOT_FOUND" } scenarioDoc
        (some fiction.rules)).2 = before ++ Event.close :: after ∧
      Event.launch ∈ before ∧ Event.close ∉ before ∧ Event.close ∉ after :=
  generatePdf_closes_once { okEngine with goto := .error "net::ERR_FILE_NOT_FOUND" }
    scenarioDoc (some fiction.rules) rfl (by decide)

/-- C11 (the code at the failing input): when `goto` fails with `navigation
failed` and `browser.close` fails with `close failed`, `generatePdf` throws the
message of the cleanup, not that of the layout step, and the unlink is skipped. -/
theorem generatePdf_cleanup_masks_primary :
    (tryBlock failingEngine (some fiction.rules)).1 = .error "navigation failed" ∧
    (generatePdf failingEngine scenarioDoc (some fiction.rules)).1 =
      .error "PDF generation failed: close failed" ∧
    (generatePdf failingEngine scenarioDoc (some fiction.rules)).1 ≠
      .error "PDF generation failed: navigation failed" ∧
    Event.unlink ∉ (generatePdf failingEngine scenarioDoc (some fiction.rules)).2 := by
  refine ⟨rfl, rfl, ?_, by decide⟩
  intro h
  have h2 : (generatePdf failingEngine scenarioDoc (some fiction.rules)).1 =
      .error "PDF generation failed: close failed" := rfl
  rw [h2] at h
  injection h with h3
  exact absurd h3 (by decide)

theorem isDecimalDigit_toNat (c : Char) (h : isDecimalDigit c = true) :
    48 ≤ c.toNat ∧ c.toNat ≤ 57 := by
  simpa [isDecimalDigit] using h

theorem not_whiteSpace_of_digit (c : Char) (h : isDecimalDigit c = true) :
    isStrWhiteSpace c = false := by
  have hc := isDecimalDigit_toNat c h
  simp only [isStrWhiteSpace, Bool.or_eq_false_iff, Bool.and_eq_false_iff,
    decide_eq_false_iff_not]
  omega

theorem takeSign_digit (c : Char) (rest : List Char) (h : isDecimalDigit c = true) :
    takeSign (c :: rest) = (false, c :: rest) := by
  unfold takeSign
  split
  · next heq =>
    injection heq with h1 _
    subst h1
    exact absurd h (by decide)
  · next heq =>
    injection heq with h1 _
    subst h1
    exact absurd h (by decide)
  · rfl

theorem not_infinity_of_digit (c : Char) (rest : List Char) (h : isDecimalDigit c = true) :
    "Infinity".toList.isPrefixOf (c :: rest) = false := by
  have hI : "Infinity".toList = ['I', 'n', 'f', 'i', 'n', 'i', 't', 'y'] := by decide
  have hne : ('I' == c) = false := by
    rw [beq_eq_false_iff_ne]
    intro hc
    subst hc
    exact absurd h (by decide)
  rw [hI, List.isPrefixOf, hne]
  rfl

theorem dropWhile_of_takeWhile_nil (suffix : List Char)
    (hs1 : suffix.takeWhile isDecimalDigit = []) :
    suffix.dropWhile isDecimalDigit = suffix := by
  have h := List.takeWhile_append_dropWhile isDecimalDigit suffix
  rw [hs1] at h
  simpa using h

theorem parseDecimalPrefix_digits (ip fp suffix : List Char) (hne : ip ≠ [])
    (hip : ∀ c ∈ ip, isDecimalDigit c = true) (hfp : ∀ c ∈ fp, isDecimalDigit c = true)
    (hs1 : suffix.takeWhile isDecimalDigit = []) (hs2 : exponentPart suffix = 0) :
    parseDecimalPrefix (ip ++ '.' :: (fp ++ suffix)) =
      roundBinary64 false (digitsValue (ip ++ fp)) (10 ^ fp.length) := by
  obtain ⟨c, ip1, rfl⟩ := List.exists_cons_of_ne_nil hne
  have hc : isDecimalDigit c = true := hip c (List.mem_cons_self _ _)
  have hdot : isDecimalDigit '.' = false := by decide
  have hsign := takeSign_digit c (ip1 ++ '.' :: (fp ++ suffix)) hc
  have hinf := not_infinity_of_digit c (ip1 ++ '.' :: (fp ++ suffix)) hc
  have htake : ((c :: ip1) ++ '.' :: (fp ++ suffix)).takeWhile isDecimalDigit = c :: ip1 := by
    rw [List.takeWhile_append_of_pos hip]
    simp [List.takeWhile_cons, hdot]
  have hdrop : ((c :: ip1) ++ '.' :: (fp ++ suffix)).dropWhile isDecimalDigit =
      '.' :: (fp ++ suffix) := by
    rw [List.dropWhile_append_of_pos hip]
    simp [List.dropWhile_cons, hdot]
  have htake2 : (fp ++ suffix).takeWhile isDecimalDigit = fp := by
    rw [List.takeWhile_append_of_pos hfp, hs1, List.append_nil]
  have hdrop2 : (fp ++ suffix).dropWhile isDecimalDigit = suffix := by
    rw [List.dropWhile_append_of_pos hfp, dropWhile_of_takeWhile_nil suffix hs1]
  rw [List.cons_append] at htake hdrop
  simp only [parseDecimalPrefix, List.cons_append, hsign, hinf, htake, hdrop, fractionDigits,
    afterFraction, htake2, hdrop2, hs2]
  simp

theorem parseDecimalPrefix_whole (ip suffix : List Char) (hne : ip ≠ [])
    (hip : ∀ c ∈ ip, isDecimalDigit c = true)
    (hs0 : ∀ rest, suffix ≠ '.' :: rest)
    (hs1 : suffix.takeWhile isDecimalDigit = []) (hs2 : exponentPart suffix = 0) :
    parseDecimalPrefix (ip ++ suffix) = roundBinary64 false (digitsValue ip) 1 := by
  obtain ⟨c, ip1, rfl⟩ := List.exists_cons_of_ne_nil hne
  have hc : isDecimalDigit c = true := hip c (List.mem_cons_self _ _)
  have hsign := takeSign_digit c (ip1 ++ suffix) hc
  have hinf := not_infinity_of_digit c (ip1 ++ suffix) hc
  have htake : ((c :: ip1) ++ suffix).takeWhile isDecimalDigit = c :: ip1 := by
    rw [List.takeWhile_append_of_pos hip, hs1, List.append_nil]
  have hdrop : ((c :: ip1) ++ suffix).dropWhile isDecimalDigit = suffix := by
    rw [List.dropWhile_append_of_pos hip, dropWhile_of_takeWhile_nil suffix hs1]
  rw [List.cons_append] at htake hdrop
  have hfrac : fractionDigits suffix = [] := by
    unfold fractionDigits
    split
    · next rest => exact absurd rfl (hs0 rest)
    · rfl
  have hafter : afterFraction suffix = suffix := by
    unfold afterFraction
    split
    · next rest => exact absurd rfl (hs0 rest)
    · rfl
  simp only [parseDecimalPrefix, List.cons_append, hsign, hinf, htake, hdrop, hfrac, hafter,
    hs2]
  simp

theorem dropWhile_whiteSpace_digit (ip rest : List Char) (hne : ip ≠ [])
    (hip : ∀ c ∈ ip, isDecimalDigit c = true) :
    (ip ++ rest).dropWhile isStrWhiteSpace = ip ++ rest := by
  obtain ⟨c, ip1, rfl⟩ := List.exists_cons_of_ne_nil hne
  have hc := not_whiteSpace_of_digit c (hip c (List.mem_cons_self _ _))
  simp [List.dropWhile_cons, hc]

theorem forEach_ok (sel : Tag → Bool) (f : Element → Except String Element)
    (g : Element → Element) (doc : Document)
    (h : ∀ el, sel el.tag = true → f el = .ok (g el)) :
    forEach sel f doc = .ok (doc.map (fun el => if sel el.tag then g el else el)) := by
  induction doc with
  | nil => rfl
  | cons el rest ih =>
    by_cases hs : sel el.tag = true
    · simp [forEach, hs, h el hs, ih]
    · simp [forEach, hs, ih]

theorem forEach_error_iff (sel : Tag → Bool) (f : Element → Except String Element)
    (P : Prop) (hP : ∀ el, (∃ e, f el = .error e) ↔ P) (doc : Document) :
    (∃ e, forEach sel f doc = .error e) ↔ P ∧ ∃ el ∈ doc, sel el.tag = true := by
  induction doc with
  | nil => simp [forEach]
  | cons el rest ih =>
    by_cases hs : sel el.tag = true
    · cases hf : f el with
      | error e0 =>
        have hp : P := (hP el).mp ⟨e0, hf⟩
        simp [forEach, hs, hf, hp]
      | ok el1 =>
        have hnp : ¬ P := fun hp => by
          obtain ⟨e, he⟩ := (hP el).mpr hp
          rw [hf] at he
          cases he
        cases hr : forEach sel f rest with
        | error e1 => simp [forEach, hs, hf, hr, hnp] at ih ⊢
        | ok r1 => simp [forEach, hs, hf, hr, hnp]
    · cases hr : forEach sel f rest with
      | error e1 =>
        rw [hr] at ih
        have h2 := ih.mp ⟨e1, rfl⟩
        obtain ⟨el2, hm, hs2⟩ := h2.2
        constructor
        · intro _
          exact ⟨h2.1, el2, List.mem_cons_of_mem _ hm, hs2⟩
        · intro _
          exact ⟨e1, by simp [forEach, hs, hr]⟩
      | ok r1 =>
        rw [hr] at ih
        simp only [forEach, hs, hr, Bool.false_eq_true, if_false, exists_false, false_iff,
          reduceCtorEq] at ih ⊢
        rintro ⟨hp, el2, hm, hs2⟩
        rcases List.mem_cons.mp hm with h | h
        · subst h
          exact hs hs2
        · exact ih ⟨hp, el2, h, hs2⟩

theorem forEach_tags (sel : Tag → Bool) (f : Element → Except String Element)
    (hf : ∀ el el1, f el = .ok el1 → el1.tag = el.tag) (doc d : Document)
    (h : forEach sel f doc = .ok d) : d.map (·.tag) = doc.map (·.tag) := by
  induction doc generalizing d with
  | nil =>
    simp [forEach] at h
    subst h
    rfl
  | cons el rest ih =>
    by_cases hs : sel el.tag = true
    · cases hfe : f el with
      | error e0 => simp [forEach, hs, hfe] at h
      | ok el1 =>
        cases hr : forEach sel f rest with
        | error e1 => simp [forEach, hs, hfe, hr] at h
        | ok r1 =>
          simp [forEach, hs, hfe, hr] at h
          subst h
          simp [ih r1 hr, hf el el1 hfe]
    · cases hr : forEach sel f rest with
      | error e1 => simp [forEach, hs, hr] at h
      | ok r1 =>
        simp [forEach, hs, hr] at h
        subst h
        simp [ih r1 hr]

theorem forEachIdx_error_iff (sel : Tag → Bool) (f : Element → Nat → Except String Element)
    (P : Prop) (hP : ∀ el index, (∃ e, f el index = .error e) ↔ P) (index : Nat)
    (doc : Document) :
    (∃ e, forEachIdx sel f index doc = .error e) ↔ P ∧ ∃ el ∈ doc, sel el.tag = true := by
  induction doc generalizing index with
  | nil => simp [forEachIdx]
  | cons el rest ih =>
    by_cases hs : sel el.tag = true
    · cases hf : f el index with
      | error e0 =>
        have hp : P := (hP el index).mp ⟨e0, hf⟩
        simp [forEachIdx, hs, hf, hp]
      | ok el1 =>
        have hnp : ¬ P := fun hp => by
          obtain ⟨e, he⟩ := (hP el index).mpr hp
          rw [hf] at he
          cases he
        have ih1 := ih (index + 1)
        cases hr : forEachIdx sel f (index + 1) rest with
        | error e1 => simp [forEachIdx, hs, hf, hr, hnp] at ih1 ⊢
        | ok r1 => simp [forEachIdx, hs, hf, hr, hnp]
    · have ih1 := ih index
      cases hr : forEachIdx sel f index rest with
      | error e1 =>
        rw [hr] at ih1
        have h2 := ih1.mp ⟨e1, rfl⟩
        obtain ⟨el2, hm, hs2⟩ := h2.2
        constructor
        · intro _
          exact ⟨h2.1, el2, List.mem_cons_of_mem _ hm, hs2⟩
        · intro _
          exact ⟨e1, by simp [forEachIdx, hs, hr]⟩
      | ok r1 =>
        rw [hr] at ih1
        simp only [forEachIdx, hs, hr, Bool.false_eq_true, if_false, exists_false, false_iff,
          reduceCtorEq] at ih1 ⊢
        rintro ⟨hp, el2, hm, hs2⟩
        rcases List.mem_cons.mp hm with h | h
        · subst h
          exact hs hs2
        · exact ih1 ⟨hp, el2, h, hs2⟩

theorem exists_mem_tag_congr (q : Tag → Prop) (d doc : Document)
    (h : d.map (·.tag) = doc.map (·.tag)) :
    (∃ el ∈ d, q el.tag) ↔ ∃ el ∈ doc, q el.tag := by
  have key : ∀ l : Document, (∃ el ∈ l, q el.tag) ↔ ∃ tg ∈ l.map (·.tag), q tg := by
    intro l
    simp [List.mem_map]
  rw [key d, key doc, h]

theorem forEach_no_match (sel : Tag → Bool) (f : Element → Except String Element)
    (doc : Document) (h : ∀ el ∈ doc, sel el.tag = false) : forEach sel f doc = .ok doc := by
  induction doc with
  | nil => rfl
  | cons el rest ih =>
    have h1 : sel el.tag = false := h el (List.mem_cons_self _ _)
    have h2 := ih (fun x hx => h x (List.mem_cons_of_mem _ hx))
    simp [forEach, h1, h2]

theorem forEachIdx_no_match (sel : Tag → Bool) (f : Element → Nat → Except String Element)
    (index : Nat) (doc : Document) (h : ∀ el ∈ doc, sel el.tag = false) :
    forEachIdx sel f index doc = .ok doc := by
  induction doc generalizing index with
  | nil => rfl
  | cons el rest ih =>
    have h1 : sel el.tag = false := h el (List.mem_cons_self _ _)
    have h2 := ih index (fun x hx => h x (List.mem_cons_of_mem _ hx))
    simp [forEachIdx, h1, h2]

theorem forEach_ok_eq (sel : Tag → Bool) (f : Element → Except String Element)
    (g : Element → Element) (P : Prop) (hP : ∀ el, (∃ e, f el = .error e) ↔ P)
    (hg : ¬ P → ∀ el, sel el.tag = true → f el = .ok (g el)) (doc d : Document)
    (h : forEach sel f doc = .ok d) :
    d = doc.map (fun el => if sel el.tag then g el else el) := by
  by_cases hp : P
  · have hno : ∀ el ∈ doc, sel el.tag = false := by
      intro el hm
      by_contra hsel
      have hsel1 : sel el.tag = true := by simpa using hsel
      obtain ⟨e, he⟩ := (forEach_error_iff sel f P hP doc).mpr ⟨hp, el, hm, hsel1⟩
      rw [h] at he
      cases he
    rw [forEach_no_match sel f doc hno] at h
    injection h with h1
    rw [← h1]
    have hid : doc.map (fun el => if sel el.tag then g el else el) = doc.map id := by
      apply List.map_congr_left
      intro el hm
      simp [hno el hm]
    rw [hid, List.map_id]
  · rw [forEach_ok sel f g doc (hg hp)] at h
    injection h with h1
    exact h1.symm

theorem forEach_ok_transfer (sel : Tag → Bool) (f : Element → Except String Element)
    (P : Prop) (hP : ∀ el, (∃ e, f el = .error e) ↔ P) (doc d r : Document)
    (htags : d.map (·.tag) = doc.map (·.tag)) (h : forEach sel f doc = .ok r) :
    ∃ r1, forEach sel f d = .ok r1 := by
  cases hr : forEach sel f d with
  | ok r1 => exact ⟨r1, rfl⟩
  | error e =>
    obtain ⟨hp, hex⟩ := (forEach_error_iff sel f P hP d).mp ⟨e, hr⟩
    have hex1 := (exists_mem_tag_congr (fun tg => sel tg = true) d doc htags).mp hex
    obtain ⟨e1, he1⟩ := (forEach_error_iff sel f P hP doc).mpr ⟨hp, hex1⟩
    rw [h] at he1
    cases he1

theorem forEachIdx_ok_transfer (sel : Tag → Bool)
    (f : Element → Nat → Except String Element) (P : Prop)
    (hP : ∀ el index, (∃ e, f el index = .error e) ↔ P) (doc d r : Document)
    (htags : d.map (·.tag) = doc.map (·.tag)) (h : forEachIdx sel f 0 doc = .ok r) :
    ∃ r1, forEachIdx sel f 0 d = .ok r1 := by
  cases hr : forEachIdx sel f 0 d with
  | ok r1 => exact ⟨r1, rfl⟩
  | error e =>
    obtain ⟨hp, hex⟩ := (forEachIdx_error_iff sel f P hP 0 d).mp ⟨e, hr⟩
    have hex1 := (exists_mem_tag_congr (fun tg => sel tg = true) d doc htags).mp hex
    obtain ⟨e1, he1⟩ := (forEachIdx_error_iff sel f P hP 0 doc).mpr ⟨hp, hex1⟩
    rw [h] at he1
    cases he1

theorem paragraphIndex_congr (d doc : Document) (h : d.map (·.tag) = doc.map (·.tag))
    (i : Nat) : paragraphIndex d i = paragraphIndex doc i := by
  have key : ∀ l : Document, paragraphIndex l i =
      ((l.map (·.tag)).take i).countP (fun tg => decide (tg = Tag.p)) := by
    intro l
    rw [← List.map_take, List.countP_map]
    rfl
  rw [key d, key doc, h]

theorem forEachIdx_passes (dom : Dom) (t : Style) (c : ChapterRules) (s : SectionRules) (rules : Rules)
    (hc : rules.chapter = some c) (index : Nat) (doc : Document) :
    forEachIdx (· = Tag.p) (applyParagraph dom (some rules)) index (doc.map (afterTitles dom t c s))
      = .ok (formatted dom t c s index doc) := by
  induction doc generalizing index with
  | nil => rfl
  | cons el rest ih =>
    obtain ⟨tag, text, style⟩ := el
    cases tag <;>
      simp [forEachIdx, formatted, styleElement, afterTitles, ih, applyParagraph, deref, hc,
        paragraphCategory, bind, Except.bind, pure, Except.pure]
    by_cases h0 : index = 0 <;> simp [h0]

theorem passes_eq_afterTitles (dom : Dom) (t : Style) (c : ChapterRules) (s : SectionRules)
    (doc : Document) :
    ((doc.map (fun el => if Tag.isText el.tag then
            ({ el with style := dom.textStyled t el.style } : Element) else el)).map
          (fun el => if decide (el.tag = Tag.h1) then
            ({ el with style := dom.objectAssign el.style c.title } : Element) else el)).map
        (fun el => if decide (el.tag = Tag.h2) then
            ({ el with style := dom.objectAssign el.style s.title } : Element) else el)
      = doc.map (afterTitles dom t c s) := by
  rw [List.map_map, List.map_map]
  apply List.map_congr_left
  intro el _
  obtain ⟨tag, text, style⟩ := el
  cases tag <;> simp [afterTitles, Tag.isText]

theorem applyFormatting_ok (dom : Dom) (doc : Document) (rules : Rules) (t : Style) (c : ChapterRules)
    (s : SectionRules) (ht : rules.text = some t) (hc : rules.chapter = some c)
    (hs : rules.«section» = some s) :
    applyFormatting (some dom) doc (some rules) = .ok (formatted dom t c s 0 doc) := by
  have h1 := forEach_ok Tag.isText (applyText dom (some rules))
    (fun el => { el with style := dom.textStyled t el.style }) doc
    (by intro el _; simp [applyText, deref, ht, Dom.textStyled, bind, Except.bind, pure, Except.pure])
  have h2 := fun d => forEach_ok (· = Tag.h1) (applyChapterTitle dom (some rules))
    (fun el => { el with style := dom.objectAssign el.style c.title }) d
    (by intro el _; simp [applyChapterTitle, deref, hc, bind, Except.bind, pure, Except.pure])
  have h3 := fun d => forEach_ok (· = Tag.h2) (applySectionTitle dom (some rules))
    (fun el => { el with style := dom.objectAssign el.style s.title }) d
    (by intro el _; simp [applySectionTitle, deref, hs, bind, Except.bind, pure, Except.pure])
  simp only [applyFormatting, h1, h2, h3, bind, Except.bind]
  rw [passes_eq_afterTitles]
  exact forEachIdx_passes dom t c s rules hc 0 doc

theorem formatted_length (dom : Dom) (t : Style) (c : ChapterRules) (s : SectionRules) (index : Nat)
    (doc : Document) : (formatted dom t c s index doc).length = doc.length := by
  induction doc generalizing index with
  | nil => rfl
  | cons el rest ih => simp [formatted, ih]

theorem formatted_getElem? (dom : Dom) (t : Style) (c : ChapterRules) (s : SectionRules) (index : Nat)
    (doc : Document) (i : Nat) :
    (formatted dom t c s index doc)[i]? =
      (doc[i]?).map (styleElement dom t c s (index + paragraphIndex doc i)) := by
  induction doc generalizing index i with
  | nil => simp [formatted]
  | cons el rest ih =>
    cases i with
    | zero => simp [formatted, paragraphIndex]
    | succ i =>
      by_cases hp : el.tag = Tag.p
      · simp [formatted, paragraphIndex, ih, hp, Nat.add_assoc, Nat.add_comm 1]
      · simp [formatted, paragraphIndex, ih, hp]

theorem styleElement_tag (dom : Dom) (t : Style) (c : ChapterRules) (s : SectionRules) (index : Nat)
    (el : Element) : (styleElement dom t c s index el).tag = el.tag := by
  obtain ⟨tag, text, style⟩ := el
  cases tag <;> rfl

theorem styleElement_text (dom : Dom) (t : Style) (c : ChapterRules) (s : SectionRules) (index : Nat)
    (el : Element) : (styleElement dom t c s index el).text = el.text := by
  obtain ⟨tag, text, style⟩ := el
  cases tag <;> rfl

theorem formatted_tags (dom : Dom) (t : Style) (c : ChapterRules) (s : SectionRules) (index : Nat)
    (doc : Document) :
    (formatted dom t c s index doc).map (·.tag) = doc.map (·.tag) := by
  induction doc generalizing index with
  | nil => rfl
  | cons el rest ih => simp [formatted, ih, styleElement_tag]

theorem formatted_tag_text (dom : Dom) (t : Style) (c : ChapterRules) (s : SectionRules) (index : Nat)
    (doc : Document) :
    (formatted dom t c s index doc).map (fun el => (el.tag, el.text)) =
      doc.map (fun el => (el.tag, el.text)) := by
  induction doc generalizing index with
  | nil => rfl
  | cons el rest ih => simp [formatted, ih, styleElement_tag, styleElement_text]

theorem formatted_eq_map (dom : Dom) (t : Style) (s : SectionRules) (title : Option Style) (index : Nat)
    (doc : Document) :
    formatted dom t { title := title, firstParagraph := none, paragraph := none } s index doc =
      doc.map (afterTitles dom t { title := title, firstParagraph := none, paragraph := none } s) := by
  induction doc generalizing index with
  | nil => rfl
  | cons el rest ih =>
    obtain ⟨tag, text, style⟩ := el
    cases tag <;> simp [formatted, styleElement, afterTitles, ih, paragraphCategory, Dom.objectAssign]

theorem applyText_error_iff (dom : Dom) (rules : Rules) (el : Element) :
    (∃ e, applyText dom (some rules) el = .error e) ↔ rules.text = none := by
  cases h : rules.text <;> simp [applyText, deref, h, bind, Except.bind, pure, Except.pure]

theorem applyChapterTitle_error_iff (dom : Dom) (rules : Rules) (el : Element) :
    (∃ e, applyChapterTitle dom (some rules) el = .error e) ↔ rules.chapter = none := by
  cases h : rules.chapter <;>
    simp [applyChapterTitle, deref, h, bind, Except.bind, pure, Except.pure]

theorem applySectionTitle_error_iff (dom : Dom) (rules : Rules) (el : Element) :
    (∃ e, applySectionTitle dom (some rules) el = .error e) ↔ rules.«section» = none := by
  cases h : rules.«section» <;>
    simp [applySectionTitle, deref, h, bind, Except.bind, pure, Except.pure]

theorem applyParagraph_error_iff (dom : Dom) (rules : Rules) (el : Element) (index : Nat) :
    (∃ e, applyParagraph dom (some rules) el index = .error e) ↔ rules.chapter = none := by
  cases h : rules.chapter <;> by_cases h0 : index = 0 <;>
    simp [applyParagraph, deref, h, h0, bind, Except.bind, pure, Except.pure]

theorem applyText_tag (dom : Dom) (rules : Option Rules) (el el1 : Element)
    (h : applyText dom rules el = .ok el1) : el1.tag = el.tag := by
  cases rules with
  | none => simp [applyText, deref, bind, Except.bind] at h
  | some r =>
    cases ht : r.text <;>
      simp [applyText, deref, ht, bind, Except.bind, pure, Except.pure] at h
    subst h
    rfl

theorem applyChapterTitle_tag (dom : Dom) (rules : Option Rules) (el el1 : Element)
    (h : applyChapterTitle dom rules el = .ok el1) : el1.tag = el.tag := by
  cases rules with
  | none => simp [applyChapterTitle, deref, bind, Except.bind] at h
  | some r =>
    cases ht : r.chapter <;>
      simp [applyChapterTitle, deref, ht, bind, Except.bind, pure, Except.pure] at h
    subst h
    rfl

theorem applySectionTitle_tag (dom : Dom) (rules : Option Rules) (el el1 : Element)
    (h : applySectionTitle dom rules el = .ok el1) : el1.tag = el.tag := by
  cases rules with
  | none => simp [applySectionTitle, deref, bind, Except.bind] at h
  | some r =>
    cases ht : r.«section» <;>
      simp [applySectionTitle, deref, ht, bind, Except.bind, pure, Except.pure] at h
    subst h
    rfl

theorem applyFormatting_ok_eq (dom : Dom) (doc out : Document) (rules : Rules)
    (h : applyFormatting (some dom) doc (some rules) = .ok out) :
    out = formatted dom (rules.text.getD []) (spreadChapter rules.chapter)
      (spreadSection rules.«section») 0 doc := by
  unfold applyFormatting at h
  simp only [bind, Except.bind] at h
  cases h1 : forEach Tag.isText (applyText dom (some rules)) doc with
  | error x => simp [h1] at h
  | ok d1 =>
    rw [h1] at h
    simp only [] at h
    cases h2 : forEach (· = Tag.h1) (applyChapterTitle dom (some rules)) d1 with
    | error x => simp [h2] at h
    | ok d2 =>
      rw [h2] at h
      simp only [] at h
      cases h3 : forEach (· = Tag.h2) (applySectionTitle dom (some rules)) d2 with
      | error x => simp [h3] at h
      | ok d3 =>
        rw [h3] at h
        simp only [] at h
        have e1 : d1 = doc.map (fun el => if Tag.isText el.tag then
            ({ el with style := dom.textStyled (rules.text.getD []) el.style } : Element)
            else el) :=
          forEach_ok_eq Tag.isText (applyText dom (some rules)) _ (rules.text = none)
            (applyText_error_iff dom rules)
            (by
              intro hn el _
              cases ht : rules.text with
              | none => exact absurd ht hn
              | some t =>
                simp [applyText, deref, ht, Dom.textStyled, bind, Except.bind, pure, Except.pure])
            doc d1 h1
        have e2 : d2 = d1.map (fun el => if decide (el.tag = Tag.h1) then
            ({ el with style := dom.objectAssign el.style (spreadChapter rules.chapter).title } :
              Element) else el) :=
          forEach_ok_eq (· = Tag.h1) (applyChapterTitle dom (some rules)) _ (rules.chapter = none)
            (applyChapterTitle_error_iff dom rules)
            (by
              intro hn el _
              cases hc : rules.chapter with
              | none => exact absurd hc hn
              | some c =>
                simp [applyChapterTitle, deref, hc, spreadChapter, bind, Except.bind, pure,
                  Except.pure])
            d1 d2 h2
        have e3 : d3 = d2.map (fun el => if decide (el.tag = Tag.h2) then
            ({ el with style := dom.objectAssign el.style (spreadSection rules.«section»).title } :
              Element) else el) :=
          forEach_ok_eq (· = Tag.h2) (applySectionTitle dom (some rules)) _
            (rules.«section» = none) (applySectionTitle_error_iff dom rules)
            (by
              intro hn el _
              cases hs : rules.«section» with
              | none => exact absurd hs hn
              | some c =>
                simp [applySectionTitle, deref, hs, spreadSection, bind, Except.bind, pure,
                  Except.pure])
            d2 d3 h3
        rw [e3, e2, e1, passes_eq_afterTitles] at h
        cases hc : rules.chapter with
        | some c =>
          rw [hc] at h
          have h5 := forEachIdx_passes dom (rules.text.getD []) c (spreadSection rules.«section»)
            rules hc 0 doc
          have h6 : Except.ok (formatted dom (rules.text.getD []) c
              (spreadSection rules.«section») 0 doc) = (Except.ok out : Except String Document) :=
            h5.symm.trans h
          injection h6 with h4
          rw [← h4]
          rfl
        | none =>
          have hno : ∀ el ∈ doc.map (afterTitles dom (rules.text.getD [])
              (spreadChapter rules.chapter) (spreadSection rules.«section»)),
              (fun tg => decide (tg = Tag.p)) el.tag = false := by
            intro el hm
            by_contra hsel
            have hsel1 : (fun tg => decide (tg = Tag.p)) el.tag = true := by simpa using hsel
            obtain ⟨x, hx⟩ := (forEachIdx_error_iff (· = Tag.p) (applyParagraph dom (some rules))
              (rules.chapter = none) (applyParagraph_error_iff dom rules) 0 _).mpr
              ⟨hc, el, hm, hsel1⟩
            rw [h] at hx
            cases hx
          rw [forEachIdx_no_match _ _ 0 _ hno] at h
          injection h with h4
          rw [← h4, hc]
          exact (formatted_eq_map dom _ _ none 0 doc).symm

theorem applyFormatting_ok_transfer (dom : Dom) (doc d out : Document) (rules : Rules)
    (htags : d.map (·.tag) = doc.map (·.tag))
    (h : applyFormatting (some dom) doc (some rules) = .ok out) :
    ∃ out1, applyFormatting (some dom) d (some rules) = .ok out1 := by
  unfold applyFormatting at h ⊢
  simp only [bind, Except.bind] at h ⊢
  cases h1 : forEach Tag.isText (applyText dom (some rules)) doc with
  | error x => simp [h1] at h
  | ok d1 =>
    rw [h1] at h
    simp only [] at h
    obtain ⟨r1, hr1⟩ := forEach_ok_transfer _ _ _ (applyText_error_iff dom rules) doc d d1 htags h1
    have t1 := forEach_tags _ _ (applyText_tag dom (some rules)) doc d1 h1
    have u1 := forEach_tags _ _ (applyText_tag dom (some rules)) d r1 hr1
    rw [hr1]
    simp only []
    cases h2 : forEach (· = Tag.h1) (applyChapterTitle dom (some rules)) d1 with
    | error x => simp [h2] at h
    | ok d2 =>
      rw [h2] at h
      simp only [] at h
      obtain ⟨r2, hr2⟩ := forEach_ok_transfer _ _ _ (applyChapterTitle_error_iff dom rules) d1 r1 d2
        (u1.trans (htags.trans t1.symm)) h2
      have t2 := forEach_tags _ _ (applyChapterTitle_tag dom (some rules)) d1 d2 h2
      have u2 := forEach_tags _ _ (applyChapterTitle_tag dom (some rules)) r1 r2 hr2
      rw [hr2]
      simp only []
      cases h3 : forEach (· = Tag.h2) (applySectionTitle dom (some rules)) d2 with
      | error x => simp [h3] at h
      | ok d3 =>
        rw [h3] at h
        simp only [] at h
        have w2 : r2.map (·.tag) = d2.map (·.tag) :=
          u2.trans ((u1.trans (htags.trans t1.symm)).trans t2.symm)
        obtain ⟨r3, hr3⟩ := forEach_ok_transfer _ _ _ (applySectionTitle_error_iff dom rules)
          d2 r2 d3 w2 h3
        have t3 := forEach_tags _ _ (applySectionTitle_tag dom (some rules)) d2 d3 h3
        have u3 := forEach_tags _ _ (applySectionTitle_tag dom (some rules)) r2 r3 hr3
        rw [hr3]
        simp only []
        exact forEachIdx_ok_transfer _ _ _ (applyParagraph_error_iff dom rules) d3 r3 out
          (u3.trans (w2.trans t3.symm)) h


theorem applyFormatting_node (doc : Document) (rules : Option Rules) :
    applyFormatting none doc rules = .error domParserMissing := rfl

theorem applyFormatting_ok_scope (scope : Option Dom) (doc out : Document)
    (rules : Option Rules) (h : applyFormatting scope doc rules = .ok out) :
    ∃ dom, scope = some dom := by
  cases scope with
  | none => simp [applyFormatting] at h
  | some dom => exact ⟨dom, rfl⟩

theorem Dom.assignAll_concat (dom : Dom) (s : Style) (a b : Style) :
    dom.assignAll s (a ++ b) = dom.assignAll (dom.assignAll s a) b := by
  simp [Dom.assignAll, List.foldl_append]

/-- C1 (failure of the claim as stated): on the scenario document under the
fiction template the service, which has no `DOMParser`, throws and styles no
paragraph; and with any DOM in scope paragraph C, the first paragraph after the
heading Ch.2, is assigned `chapter.paragraph`, which under a DOM that stores
what it is given differs from the assignment of `chapter.firstParagraph`. -/
theorem applyFormatting_scenario_second_chapter :
    applyFormatting none scenarioDoc (some fiction.rules) = .error domParserMissing ∧
    isFirstInChapter scenarioDoc 4 = true ∧
    (∀ dom : Dom, ∃ out, applyFormatting (some dom) scenarioDoc (some fiction.rules) = .ok out ∧
      out[4]? = some (Element.mk Tag.p "C"
        (dom.objectAssign (dom.textStyled (fiction.rules.text.getD []) [])
          (fiction.rules.category .chapterParagraph)))) ∧
    verbatimDom.objectAssign (verbatimDom.textStyled (fiction.rules.text.getD []) [])
        (fiction.rules.category .chapterParagraph) ≠
      verbatimDom.objectAssign (verbatimDom.textStyled (fiction.rules.text.getD []) [])
        (fiction.rules.category .chapterFirstParagraph) := by
  refine ⟨rfl, by decide, ?_, by decide⟩
  intro dom
  exact ⟨_, rfl, rfl⟩

/-- C1 (amended): with a DOM in scope, for every document and every rule set
with the groups text, chapter and section, `applyFormatting` returns a document
of the same length in which the paragraph with paragraph index 0 (the first `p`
of the whole document) has been assigned `rules.chapter.firstParagraph` and
every other paragraph `rules.chapter.paragraph`, after the text attributes. -/
theorem applyFormatting_first_paragraph (dom : Dom) (doc : Document) (rules : Rules)
    (t : Style) (c : ChapterRules) (s : SectionRules) (ht : rules.text = some t)
    (hc : rules.chapter = some c) (hs : rules.«section» = some s) :
    ∃ out, applyFormatting (some dom) doc (some rules) = .ok out ∧
      out.length = doc.length ∧
      ∀ (i : Nat) (el : Element), doc[i]? = some el → el.tag = Tag.p →
        out[i]? = some { el with
          style := dom.objectAssign (dom.textStyled t el.style)
            (if paragraphIndex doc i = 0 then c.firstParagraph else c.paragraph) } := by
  refine ⟨_, applyFormatting_ok dom doc rules t c s ht hc hs, formatted_length dom t c s 0 doc,
    ?_⟩
  intro i el hi hp
  rw [formatted_getElem?, hi]
  simp [styleElement, hp, paragraphCategory]

/-- Witness for C1 (amended): the scenario document under the fiction template,
run with the DOM double. -/
theorem applyFormatting_first_paragraph_witness :
    ∃ out, applyFormatting (some verbatimDom) scenarioDoc (some fiction.rules) = .ok out ∧
      out.length = scenarioDoc.length ∧
      ∀ (i : Nat) (el : Element), scenarioDoc[i]? = some el → el.tag = Tag.p →
        out[i]? = some { el with
          style := verbatimDom.objectAssign
            (verbatimDom.textStyled (fiction.rules.text.getD []) el.style)
            (if paragraphIndex scenarioDoc i = 0
              then (spreadChapter fiction.rules.chapter).firstParagraph
              else (spreadChapter fiction.rules.chapter).paragraph) } :=
  applyFormatting_first_paragraph verbatimDom scenarioDoc fiction.rules
    (fiction.rules.text.getD []) (spreadChapter fiction.rules.chapter)
    (spreadSection fiction.rules.«section») rfl rfl rfl

/-- C6 (failure of the claim as stated): on the scenario document under the
fiction template the service, which has no `DOMParser`, throws and no block
carries anything; and with any DOM in scope the chapter heading is assigned
`chapter.title` only, never the text attributes, so that under a DOM that stores
what it is given it has neither fontFamily nor color although `rules.text`
defines both and `chapter.title` neither. -/
theorem applyFormatting_heading_without_text_attributes :
    applyFormatting none scenarioDoc (some fiction.rules) = .error domParserMissing ∧
    (∀ dom : Dom, ∃ out, applyFormatting (some dom) scenarioDoc (some fiction.rules) = .ok out ∧
      out[0]? = some (Element.mk Tag.h1 "Ch.1"
        (dom.objectAssign [] (fiction.rules.category .chapterTitle)))) ∧
    fiction.rules.attribute .text "fontFamily" = some "Times New Roman" ∧
    fiction.rules.attribute .text "color" = some "#000000" ∧
    fiction.rules.attribute .chapterTitle "fontFamily" = none ∧
    fiction.rules.attribute .chapterTitle "color" = none ∧
    Style.get (verbatimDom.objectAssign [] (fiction.rules.category .chapterTitle))
      "fontFamily" = none ∧
    Style.get (verbatimDom.objectAssign [] (fiction.rules.category .chapterTitle))
      "color" = none := by
  refine ⟨rfl, ?_, by decide, by decide, by decide, by decide, by decide, by decide⟩
  intro dom
  exact ⟨_, rfl, rfl⟩

/-- C6 (amended): with a DOM in scope, for every document and every rule set
with the groups text, chapter and section, `applyFormatting` returns a document
in which every `p` has been assigned fontFamily, fontSize and color of
`rules.text` and then its own category (`chapter.firstParagraph` at paragraph
index 0, `chapter.paragraph` otherwise) on top, every `span` and `div` the three
text attributes alone, and every `h1` and `h2` its own category alone
(`chapter.title`, `section.title`), without the text attributes. -/
theorem applyFormatting_text_attributes (dom : Dom) (doc : Document) (rules : Rules)
    (t : Style) (c : ChapterRules) (s : SectionRules) (ht : rules.text = some t)
    (hc : rules.chapter = some c) (hs : rules.«section» = some s) :
    ∃ out, applyFormatting (some dom) doc (some rules) = .ok out ∧
      out.length = doc.length ∧
      ∀ (i : Nat) (el : Element), doc[i]? = some el →
        (el.tag = Tag.p → out[i]? = some { el with
          style := dom.objectAssign
            (dom.assign (dom.assign (dom.assign el.style "fontFamily" (t.get "fontFamily"))
              "fontSize" (t.get "fontSize")) "color" (t.get "color"))
            (paragraphCategory c (paragraphIndex doc i)) }) ∧
        (el.tag = Tag.span ∨ el.tag = Tag.div → out[i]? = some { el with
          style := dom.assign (dom.assign (dom.assign el.style "fontFamily"
            (t.get "fontFamily")) "fontSize" (t.get "fontSize")) "color" (t.get "color") }) ∧
        (el.tag = Tag.h1 →
          out[i]? = some { el with style := dom.objectAssign el.style c.title }) ∧
        (el.tag = Tag.h2 →
          out[i]? = some { el with style := dom.objectAssign el.style s.title }) := by
  refine ⟨_, applyFormatting_ok dom doc rules t c s ht hc hs, formatted_length dom t c s 0 doc,
    ?_⟩
  intro i el hi
  rw [formatted_getElem?, hi]
  refine ⟨?_, ?_, ?_, ?_⟩
  · intro hp
    simp [styleElement, hp, Dom.textStyled]
  · rintro (h | h) <;> simp [styleElement, h, Dom.textStyled]
  · intro h
    simp [styleElement, h]
  · intro h
    simp [styleElement, h]

/-- Witness for C6 (amended): the scenario document under the fiction template,
run with the DOM double. -/
theorem applyFormatting_text_attributes_witness :
    ∃ out, applyFormatting (some verbatimDom) scenarioDoc (some fiction.rules) = .ok out ∧
      out.length = scenarioDoc.length ∧
      ∀ (i : Nat) (el : Element), scenarioDoc[i]? = some el →
        (el.tag = Tag.p → out[i]? = some { el with
          style := verbatimDom.objectAssign
            (verbatimDom.assign (verbatimDom.assign (verbatimDom.assign el.style "fontFamily"
              (Style.get (fiction.rules.text.getD []) "fontFamily"))
              "fontSize" (Style.get (fiction.rules.text.getD []) "fontSize")) "color"
              (Style.get (fiction.rules.text.getD []) "color"))
            (paragraphCategory (spreadChapter fiction.rules.chapter)
              (paragraphIndex scenarioDoc i)) }) ∧
        (el.tag = Tag.span ∨ el.tag = Tag.div → out[i]? = some { el with
          style := verbatimDom.assign (verbatimDom.assign (verbatimDom.assign el.style
            "fontFamily" (Style.get (fiction.rules.text.getD []) "fontFamily")) "fontSize"
            (Style.get (fiction.rules.text.getD []) "fontSize")) "color"
            (Style.get (fiction.rules.text.getD []) "color") }) ∧
        (el.tag = Tag.h1 → out[i]? = some { el with
          style := verbatimDom.objectAssign el.style
            (spreadChapter fiction.rules.chapter).title }) ∧
        (el.tag = Tag.h2 → out[i]? = some { el with
          style := verbatimDom.objectAssign el.style
            (spreadSection fiction.rules.«section»).title }) :=
  applyFormatting_text_attributes verbatimDom scenarioDoc fiction.rules
    (fiction.rules.text.getD []) (spreadChapter fiction.rules.chapter)
    (spreadSection fiction.rules.«section») rfl rfl rfl

theorem applyFormatting_dom_error_iff (dom : Dom) (doc : Document) (rules : Rules) :
    (∃ e, applyFormatting (some dom) doc (some rules) = .error e) ↔
      (rules.text = none ∧ ∃ el ∈ doc, el.tag.isText = true) ∨
      (rules.chapter = none ∧ ∃ el ∈ doc, el.tag = Tag.h1 ∨ el.tag = Tag.p) ∨
      (rules.«section» = none ∧ ∃ el ∈ doc, el.tag = Tag.h2) := by
  have e1 := forEach_error_iff Tag.isText (applyText dom (some rules)) (rules.text = none)
    (applyText_error_iff dom rules) doc
  have e2 := forEach_error_iff (· = Tag.h1) (applyChapterTitle dom (some rules))
    (rules.chapter = none) (applyChapterTitle_error_iff dom rules)
  have e3 := forEach_error_iff (· = Tag.h2) (applySectionTitle dom (some rules))
    (rules.«section» = none) (applySectionTitle_error_iff dom rules)
  have e4 := forEachIdx_error_iff (· = Tag.p) (applyParagraph dom (some rules))
    (rules.chapter = none) (applyParagraph_error_iff dom rules) 0
  simp only [applyFormatting]
  cases h1 : forEach Tag.isText (applyText dom (some rules)) doc with
  | error x1 =>
    have r1 := e1.mp ⟨x1, h1⟩
    simp only [bind, Except.bind]
    exact ⟨fun _ => Or.inl r1, fun _ => ⟨x1, rfl⟩⟩
  | ok d1 =>
    have t1 := forEach_tags _ _ (applyText_tag dom (some rules)) doc d1 h1
    have n1 : ¬ (rules.text = none ∧ ∃ el ∈ doc, el.tag.isText = true) := by
      intro hn
      obtain ⟨x, hx⟩ := e1.mpr hn
      rw [h1] at hx
      cases hx
    simp only [bind, Except.bind]
    cases h2 : forEach (· = Tag.h1) (applyChapterTitle dom (some rules)) d1 with
    | error x2 =>
      have r2 := (e2 d1).mp ⟨x2, h2⟩
      have r2b := (exists_mem_tag_congr (fun tg => tg = Tag.h1) d1 doc t1).mp
        (by simpa using r2.2)
      simp only []
      refine ⟨fun _ => Or.inr (Or.inl ⟨r2.1, ?_⟩), fun _ => ⟨x2, rfl⟩⟩
      obtain ⟨el, hm, ht⟩ := r2b
      exact ⟨el, hm, Or.inl ht⟩
    | ok d2 =>
      have t2 := forEach_tags _ _ (applyChapterTitle_tag dom (some rules)) d1 d2 h2
      have n2 : ¬ (rules.chapter = none ∧ ∃ el ∈ doc, el.tag = Tag.h1) := by
        rintro ⟨hn, hex⟩
        have hex1 := (exists_mem_tag_congr (fun tg => tg = Tag.h1) d1 doc t1).mpr hex
        obtain ⟨x, hx⟩ := (e2 d1).mpr ⟨hn, by simpa using hex1⟩
        rw [h2] at hx
        cases hx
      simp only []
      cases h3 : forEach (· = Tag.h2) (applySectionTitle dom (some rules)) d2 with
      | error x3 =>
        have r3 := (e3 d2).mp ⟨x3, h3⟩
        have r3b := (exists_mem_tag_congr (fun tg => tg = Tag.h2) d2 doc (t2.trans t1)).mp
          (by simpa using r3.2)
        simp only []
        exact ⟨fun _ => Or.inr (Or.inr ⟨r3.1, r3b⟩), fun _ => ⟨x3, rfl⟩⟩
      | ok d3 =>
        have t3 := forEach_tags _ _ (applySectionTitle_tag dom (some rules)) d2 d3 h3
        have n3 : ¬ (rules.«section» = none ∧ ∃ el ∈ doc, el.tag = Tag.h2) := by
          rintro ⟨hn, hex⟩
          have hex1 :=
            (exists_mem_tag_congr (fun tg => tg = Tag.h2) d2 doc (t2.trans t1)).mpr hex
          obtain ⟨x, hx⟩ := (e3 d2).mpr ⟨hn, by simpa using hex1⟩
          rw [h3] at hx
          cases hx
        simp only []
        rw [e4 d3]
        have tr := exists_mem_tag_congr (fun tg => tg = Tag.p) d3 doc (t3.trans (t2.trans t1))
        constructor
        · rintro ⟨hn, hex⟩
          obtain ⟨el, hm, ht⟩ := tr.mp (by simpa using hex)
          exact Or.inr (Or.inl ⟨hn, el, hm, Or.inr ht⟩)
        · rintro (h | ⟨hn, el, hm, ht | ht⟩ | h)
          · exact absurd h n1
          · exact absurd ⟨hn, el, hm, ht⟩ n2
          · exact ⟨hn, by simpa using tr.mpr ⟨el, hm, ht⟩⟩
          · exact absurd h n3

theorem applyFormatting_dom_missing_title_returns (dom : Dom) :
    applyFormatting (some dom) [{ tag := .h1, text := "Ch.1", style := [] }]
        (some { fiction.rules with
          chapter := some { title := none, firstParagraph := none, paragraph := none } })
      = .ok [{ tag := .h1, text := "Ch.1", style := [] }] ∧
    applyFormatting (some dom) [{ tag := .h2, text := "Sec.1", style := [] }]
        (some { fiction.rules with «section» := some { title := none } })
      = .ok [{ tag := .h2, text := "Sec.1", style := [] }] :=
  ⟨rfl, rfl⟩

/-- C7: for every document and every rule set that lacks a category required by a
block present in the document, `applyFormatting` as the service runs it fails
with an error and returns no styled output: without a `DOMParser` in scope it
throws `DOMParser is not defined` on every input; and with a DOM in scope it
still fails whenever a whole group read for a block present is missing. -/
theorem applyFormatting_fails_on_missing_category :
    (∀ (doc : Document) (rules : Rules), lacksRequiredCategory rules doc →
      (∃ e, applyFormatting none doc (some rules) = .error e) ∧
      ¬ ∃ out, applyFormatting none doc (some rules) = .ok out) ∧
    (∀ (doc : Document) (rules : Option Rules),
      applyFormatting none doc rules = .error domParserMissing) ∧
    (∀ (dom : Dom) (doc : Document) (rules : Rules),
      (rules.text = none ∧ ∃ el ∈ doc, el.tag.isText = true) ∨
      (rules.chapter = none ∧ ∃ el ∈ doc, el.tag = Tag.h1 ∨ el.tag = Tag.p) ∨
      (rules.«section» = none ∧ ∃ el ∈ doc, el.tag = Tag.h2) →
      ∃ e, applyFormatting (some dom) doc (some rules) = .error e) := by
  refine ⟨?_, fun _ _ => rfl, ?_⟩
  · intro doc rules _
    refine ⟨⟨domParserMissing, rfl⟩, ?_⟩
    rintro ⟨out, hout⟩
    rw [applyFormatting_node] at hout
    cases hout
  · intro dom doc rules h
    exact (applyFormatting_dom_error_iff dom doc rules).mpr h

/-- Witness for C7: a document with one `h1` and a rule set whose chapter group
has no title entry. -/
theorem applyFormatting_fails_on_missing_category_witness :
    (∃ e, applyFormatting none [{ tag := .h1, text := "Ch.1", style := [] }]
        (some { fiction.rules with
          chapter := some { title := none, firstParagraph := none, paragraph := none } })
        = .error e) ∧
    ¬ ∃ out, applyFormatting none [{ tag := .h1, text := "Ch.1", style := [] }]
        (some { fiction.rules with
          chapter := some { title := none, firstParagraph := none, paragraph := none } })
        = .ok out :=
  applyFormatting_fails_on_missing_category.1 [{ tag := .h1, text := "Ch.1", style := [] }]
    { fiction.rules with
      chapter := some { title := none, firstParagraph := none, paragraph := none } }
    (Or.inl ⟨rfl, _, List.mem_singleton.mpr rfl, rfl⟩)

theorem builtin_applyFormatting_ok (id : TemplateId) (dom : Dom) (doc : Document) :
    applyFormatting (some dom) doc (some id.template.rules) =
      .ok (formatted dom (id.template.rules.text.getD [])
        (spreadChapter id.template.rules.chapter)
        (spreadSection id.template.rules.«section») 0 doc) :=
  applyFormatting_ok dom doc id.template.rules (id.template.rules.text.getD [])
    (spreadChapter id.template.rules.chapter) (spreadSection id.template.rules.«section»)
    (by cases id <;> rfl) (by cases id <;> rfl) (by cases id <;> rfl)

theorem builtin_title_last (id : TemplateId) :
    ∃ init, (spreadChapter id.template.rules.chapter).title =
      some (init ++ [("pageBreakBefore", "always")]) := by
  cases id
  · exact ⟨[("fontSize", "18pt"), ("fontWeight", "bold"), ("textAlign", "center"),
      ("marginTop", "1.5in"), ("marginBottom", "0.5in")], by decide⟩
  · exact ⟨[("fontSize", "16pt"), ("fontWeight", "bold"), ("textAlign", "center"),
      ("marginTop", "1in"), ("marginBottom", "0.5in")], by decide⟩

theorem builtin_h1_style (id : TemplateId) (dom : Dom) (index : Nat) (el : Element)
    (h : el.tag = Tag.h1) :
    ∃ s1, styleElement dom (id.template.rules.text.getD [])
        (spreadChapter id.template.rules.chapter)
        (spreadSection id.template.rules.«section») index el =
      { el with style := dom.assign s1 "pageBreakBefore" (some "always") } := by
  obtain ⟨init, hinit⟩ := builtin_title_last id
  refine ⟨dom.assignAll el.style init, ?_⟩
  simp only [styleElement, h, hinit, Dom.objectAssign, Dom.assignAll_concat]
  rfl

/-- C10: for both built-in templates and every document, whenever
`applyFormatting` returns, its output has the elements of the document in the
same order with the same tags and texts, and on every `h1` the last style
assignment made is `pageBreakBefore = always`, which is what the `h1` then reads
under a DOM that reads back what this assignment writes; with a DOM in scope it
does return; and the stylesheet of `generatePdf` has the declaration
`page-break-before: always` in its `h1` rule. -/
theorem chapter_headings_break_page (id : TemplateId) (scope : Option Dom) (doc : Document) :
    (∀ out, applyFormatting scope doc (some id.template.rules) = .ok out →
      ∃ dom, scope = some dom ∧
        out.map (fun el => (el.tag, el.text)) = doc.map (fun el => (el.tag, el.text)) ∧
        (∀ (i : Nat) (el : Element), doc[i]? = some el → el.tag = Tag.h1 →
          ∃ s1, out[i]? =
            some { el with style := dom.assign s1 "pageBreakBefore" (some "always") }) ∧
        (∀ el ∈ out, el.tag = Tag.h1 →
          (∃ s1, el.style = dom.assign s1 "pageBreakBefore" (some "always")) ∧
          ((∀ s, Style.get (dom.assign s "pageBreakBefore" (some "always"))
              "pageBreakBefore" = some "always") →
            el.style.get "pageBreakBefore" = some "always"))) ∧
    (∀ dom : Dom, ∃ out, applyFormatting (some dom) doc (some id.template.rules) = .ok out) ∧
    ∃ sheet, styleSheet (some id.template.rules) = .ok sheet ∧
      ∃ rule ∈ sheet, rule.selector = "h1" ∧
        ("page-break-before", "always") ∈ rule.declarations := by
  refine ⟨?_, fun dom => ⟨_, builtin_applyFormatting_ok id dom doc⟩, ?_⟩
  · intro out hout
    obtain ⟨dom, hscope⟩ := applyFormatting_ok_scope scope doc out _ hout
    subst hscope
    rw [builtin_applyFormatting_ok id dom doc] at hout
    injection hout with hout
    subst hout
    refine ⟨dom, rfl, formatted_tag_text dom _ _ _ 0 doc, ?_, ?_⟩
    · intro i el hi htag
      obtain ⟨s1, hs1⟩ := builtin_h1_style id dom (0 + paragraphIndex doc i) el htag
      exact ⟨s1, by rw [formatted_getElem?, hi, Option.map_some', hs1]⟩
    · intro el hm htag
      obtain ⟨i, hi⟩ := List.mem_iff_getElem?.mp hm
      rw [formatted_getElem?] at hi
      cases hdoc : doc[i]? with
      | none => simp [hdoc] at hi
      | some el0 =>
        rw [hdoc, Option.map_some', Option.some.injEq] at hi
        have htag0 : el0.tag = Tag.h1 := by
          rw [← styleElement_tag dom _ _ _ (0 + paragraphIndex doc i) el0, hi]
          exact htag
        obtain ⟨s1, hs1⟩ := builtin_h1_style id dom (0 + paragraphIndex doc i) el0 htag0
        have hstyle : el.style = dom.assign s1 "pageBreakBefore" (some "always") := by
          rw [← hi, hs1]
        exact ⟨⟨s1, hstyle⟩, fun hread => by rw [hstyle]; exact hread s1⟩
  · cases id
    · exact ⟨_, rfl, _, List.mem_cons_of_mem _ (List.mem_cons_of_mem _ (List.mem_cons_self _ _)),
        rfl, by decide⟩
    · exact ⟨_, rfl, _, List.mem_cons_of_mem _ (List.mem_cons_of_mem _ (List.mem_cons_self _ _)),
        rfl, by decide⟩

/-- C14: the merged rule set of both registered templates defines all nine
categories; so for these templates `applyFormatting` returns for every document
whenever a DOM is in scope, the only error it can throw is the missing
`DOMParser` and never a read through a missing category, and the stylesheet and
the page options of `generatePdf` are built without such a read. -/
theorem builtin_templates_complete :
    (∀ (id : TemplateId) (c : Category), ∃ st, id.template.rules.category c = some st) ∧
    (∀ (id : TemplateId) (dom : Dom) (doc : Document), ∃ out,
      applyFormatting (some dom) doc (some id.template.rules) = .ok out) ∧
    (∀ (id : TemplateId) (scope : Option Dom) (doc : Document) (e : String),
      applyFormatting scope doc (some id.template.rules) = .error e →
      scope = none ∧ e = domParserMissing) ∧
    (∀ id : TemplateId, ∃ sheet, styleSheet (some id.template.rules) = .ok sheet) ∧
    (∀ id : TemplateId, ∃ options, pdfOptions (some id.template.rules) = .ok options) := by
  refine ⟨?_, ?_, ?_, ?_, ?_⟩
  · intro id c
    cases id <;> cases c <;> exact ⟨_, rfl⟩
  · intro id dom doc
    exact ⟨_, builtin_applyFormatting_ok id dom doc⟩
  · intro id scope doc e h
    cases scope with
    | none =>
      rw [applyFormatting_node] at h
      injection h with h1
      exact ⟨rfl, h1.symm⟩
    | some dom =>
      rw [builtin_applyFormatting_ok id dom doc] at h
      cases h
  · intro id
    cases id <;> exact ⟨_, rfl⟩
  · intro id
    cases id <;> exact ⟨_, rfl⟩

/-- C9: `formatDocument` returns both artifacts exactly when decoding,
`applyFormatting`, `generateDocx` and `generatePdf` all succeed, and then they
are the two results; when one of the four fails it returns nothing and throws
`Document formatting failed: ` followed by the message of that step. -/
theorem formatDocument_all_or_nothing (env : Collaborators) (templateName : Option String) :
    (∀ a : Artifacts, formatDocument env templateName = .ok a ↔
      ∃ html formattedHtml, env.convertToHtml = .ok html ∧
        applyFormatting env.DOMParser html (selectRules templateName) = .ok formattedHtml ∧
        generateDocx env formattedHtml = .ok a.docx ∧
        (generatePdf env.engine formattedHtml (selectRules templateName)).1 = .ok a.pdf) ∧
    (∀ m, env.convertToHtml = .error m →
      formatDocument env templateName = .error ("Document formatting failed: " ++ m)) ∧
    (∀ html m, env.convertToHtml = .ok html →
      applyFormatting env.DOMParser html (selectRules templateName) = .error m →
      formatDocument env templateName = .error ("Document formatting failed: " ++ m)) ∧
    (∀ html formattedHtml m, env.convertToHtml = .ok html →
      applyFormatting env.DOMParser html (selectRules templateName) = .ok formattedHtml →
      generateDocx env formattedHtml = .error m →
      formatDocument env templateName = .error ("Document formatting failed: " ++ m)) ∧
    (∀ html formattedHtml docx m, env.convertToHtml = .ok html →
      applyFormatting env.DOMParser html (selectRules templateName) = .ok formattedHtml →
      generateDocx env formattedHtml = .ok docx →
      (generatePdf env.engine formattedHtml (selectRules templateName)).1 = .error m →
      formatDocument env templateName = .error ("Document formatting failed: " ++ m)) := by
  refine ⟨?_, ?_, ?_, ?_, ?_⟩
  · intro a
    simp only [formatDocument, formatDocumentBody, bind, Except.bind, pure, Except.pure]
    cases h1 : env.convertToHtml with
    | error m => simp [Except.mapError]
    | ok html =>
      cases h2 : applyFormatting env.DOMParser html (selectRules templateName) with
      | error m => simp [Except.mapError, h2]
      | ok formattedHtml =>
        cases h3 : generateDocx env formattedHtml with
        | error m => simp [Except.mapError, h2, h3]
        | ok docx =>
          cases h4 : (generatePdf env.engine formattedHtml (selectRules templateName)).1 with
          | error m => simp [Except.mapError, h2, h3, h4]
          | ok pdf =>
            obtain ⟨d, q⟩ := a
            simp [Except.mapError, h2, h3, h4]
  · intro m h1
    simp [formatDocument, formatDocumentBody, bind, Except.bind, h1, Except.mapError]
  · intro html m h1 h2
    simp [formatDocument, formatDocumentBody, bind, Except.bind, h1, h2, Except.mapError]
  · intro html formattedHtml m h1 h2 h3
    simp [formatDocument, formatDocumentBody, bind, Except.bind, h1, h2, h3, Except.mapError]
  · intro html formattedHtml docx m h1 h2 h3 h4
    simp [formatDocument, formatDocumentBody, bind, Except.bind, h1, h2, h3, h4,
      Except.mapError]

theorem selectRules_fallback (name : String) (h1 : name ≠ "fiction")
    (h2 : name ≠ "nonFiction") (h3 : name ∉ objectPrototypeKeys) :
    selectRules (some name) = some fiction.rules ∧ selectRules none = some fiction.rules := by
  constructor
  · simp [selectRules, templatesGet, h1, h2, h3]
  · rfl

theorem formatDocument_congr (env : Collaborators) (a b : Option String)
    (h : selectRules a = selectRules b) : formatDocument env a = formatDocument env b := by
  simp only [formatDocument, formatDocumentBody, h]

theorem formatDocument_node (env : Collaborators) (a b : Option String)
    (h : env.DOMParser = none) : formatDocument env a = formatDocument env b := by
  simp only [formatDocument, formatDocumentBody, h, applyFormatting_node]
  cases env.convertToHtml <;> rfl

theorem formatDocument_dom_inherited_key :
    formatDocument { nodeCollaborators with DOMParser := some verbatimDom }
        (some "constructor") =
      .error ("Document formatting failed: " ++ undefinedRead "text") ∧
    formatDocument { nodeCollaborators with DOMParser := some verbatimDom } (some "fiction") =
      .ok { docx := [80, 75], pdf := [37, 80, 68, 70] } :=
  ⟨rfl, rfl⟩

/-- C2: in the service, whose global scope has no `DOMParser`, the result of
`formatDocument` for any template name, registered or not, or for an omitted
name equals its result for `fiction` (once the source is decoded, the error of
`applyFormatting` rewrapped); and in any scope, for an omitted name and for every
name that is neither a registered id nor a member inherited from
`Object.prototype`, the lookup falls back to the fiction rules and the result
equals that for `fiction`. -/
theorem formatDocument_unregistered_template (env : Collaborators)
    (templateName : Option String) :
    (env.DOMParser = none →
      formatDocument env templateName = formatDocument env (some "fiction") ∧
      ∀ html, env.convertToHtml = .ok html →
        formatDocument env templateName =
          .error ("Document formatting failed: " ++ domParserMissing)) ∧
    (templateName ≠ some "nonFiction" →
      (∀ name, templateName = some name → name ∉ objectPrototypeKeys) →
      selectRules templateName = some fiction.rules ∧
      formatDocument env templateName = formatDocument env (some "fiction")) := by
  refine ⟨fun h => ⟨formatDocument_node env _ _ h, fun html hhtml => by
    simp only [formatDocument, formatDocumentBody, h, hhtml, applyFormatting_node]
    rfl⟩, ?_⟩
  intro hreg hinh
  have hsel : selectRules templateName = some fiction.rules := by
    cases templateName with
    | none => rfl
    | some name =>
      by_cases h1 : name = "fiction"
      · subst h1
        rfl
      · have h2 : name ≠ "nonFiction" := fun h => hreg (by rw [h])
        exact (selectRules_fallback name h1 h2 (hinh name rfl)).1
  exact ⟨hsel, formatDocument_congr env _ _ (by rw [hsel]; rfl)⟩

/-- Witness for C2: the service with library calls that succeed, asked for the
template names `constructor` and `draft`. -/
theorem formatDocument_unregistered_template_witness :
    formatDocument nodeCollaborators (some "constructor") =
      formatDocument nodeCollaborators (some "fiction") ∧
    selectRules (some "draft") = some fiction.rules ∧
    formatDocument nodeCollaborators (some "draft") =
      formatDocument nodeCollaborators (some "fiction") :=
  ⟨((formatDocument_unregistered_template nodeCollaborators (some "constructor")).1 rfl).1,
    (formatDocument_unregistered_template nodeCollaborators (some "draft")).2 (by decide)
      (by intro name h; injection h with h1; subst h1; decide)⟩

theorem takeWhile_append_stop (p : Char → Bool) (l u : List Char)
    (hu : u.takeWhile p = []) : (l ++ u).takeWhile p = l.takeWhile p := by
  induction l with
  | nil => simpa using hu
  | cons a l ih => by_cases h : p a = true <;> simp [List.takeWhile_cons, h, ih]

theorem dropWhile_append_stop (p : Char → Bool) (l u : List Char)
    (hu : u.takeWhile p = []) : (l ++ u).dropWhile p = l.dropWhile p ++ u := by
  induction l with
  | nil =>
    have h := List.takeWhile_append_dropWhile p u
    rw [hu] at h
    simpa using h
  | cons a l ih => by_cases h : p a = true <;> simp [List.dropWhile_cons, h, ih]

theorem takeSign_other (c : Char) (rest : List Char) (h1 : c ≠ '-') (h2 : c ≠ '+') :
    takeSign (c :: rest) = (false, c :: rest) := by
  unfold takeSign
  split
  · next heq =>
    injection heq with h _
    exact absurd h h1
  · next heq =>
    injection heq with h _
    exact absurd h h2
  · rfl

theorem takeSign_append (body u : List Char) (hu : takeSign u = (false, u)) :
    takeSign (body ++ u) = ((takeSign body).1, (takeSign body).2 ++ u) := by
  cases body with
  | nil => simpa [takeSign] using hu
  | cons c rest =>
    by_cases h1 : c = '-'
    · subst h1
      simp [takeSign]
    · by_cases h2 : c = '+'
      · subst h2
        simp [takeSign]
      · rw [List.cons_append, takeSign_other c _ h1 h2, takeSign_other c _ h1 h2]
        rfl

theorem isPrefixOf_append_stop (pat b u : List Char)
    (h : ∀ v ∈ pat.tails, v ≠ [] → v.isPrefixOf u = false) :
    pat.isPrefixOf (b ++ u) = pat.isPrefixOf b := by
  induction pat generalizing b with
  | nil => simp [List.isPrefixOf]
  | cons p ps ih =>
    cases b with
    | nil =>
      have h1 := h (p :: ps) (by simp) (by simp)
      simpa [List.isPrefixOf] using h1
    | cons c b1 =>
      have h2 : ∀ v ∈ ps.tails, v ≠ [] → v.isPrefixOf u = false := by
        intro v hv hne
        exact h v (by simp [List.tails, hv]) hne
      simp [List.isPrefixOf, ih b1 h2]

theorem fractionDigits_other (c : Char) (rest : List Char) (h : c ≠ '.') :
    fractionDigits (c :: rest) = [] := by
  unfold fractionDigits
  split
  · next heq =>
    injection heq with h1 _
    exact absurd h1 h
  · rfl

theorem afterFraction_other (c : Char) (rest : List Char) (h : c ≠ '.') :
    afterFraction (c :: rest) = c :: rest := by
  unfold afterFraction
  split
  · next heq =>
    injection heq with h1 _
    exact absurd h1 h
  · rfl

theorem fractionDigits_append (r u : List Char) (hu1 : u.takeWhile isDecimalDigit = [])
    (hu2 : fractionDigits u = []) : fractionDigits (r ++ u) = fractionDigits r := by
  cases r with
  | nil => simpa [fractionDigits] using hu2
  | cons c rest =>
    by_cases h : c = '.'
    · subst h
      simp [fractionDigits, takeWhile_append_stop _ _ _ hu1]
    · rw [List.cons_append, fractionDigits_other c _ h, fractionDigits_other c _ h]

theorem afterFraction_append (r u : List Char) (hu1 : u.takeWhile isDecimalDigit = [])
    (hu3 : afterFraction u = u) : afterFraction (r ++ u) = afterFraction r ++ u := by
  cases r with
  | nil => simpa [afterFraction] using hu3
  | cons c rest =>
    by_cases h : c = '.'
    · subst h
      simp [afterFraction, dropWhile_append_stop _ _ _ hu1]
    · rw [List.cons_append, afterFraction_other c _ h, afterFraction_other c _ h,
        List.cons_append]

theorem exponentPart_append (r u : List Char) (hu0 : takeSign u = (false, u))
    (hu1 : u.takeWhile isDecimalDigit = []) (hu4 : exponentPart u = 0) :
    exponentPart (r ++ u) = exponentPart r := by
  cases r with
  | nil => simpa [exponentPart] using hu4
  | cons c rest =>
    simp only [List.cons_append, exponentPart, takeSign_append rest u hu0,
      takeWhile_append_stop _ _ _ hu1]

theorem parseDecimalPrefix_append (body u : List Char) (hu0 : takeSign u = (false, u))
    (hu1 : u.takeWhile isDecimalDigit = []) (hu2 : fractionDigits u = [])
    (hu3 : afterFraction u = u) (hu4 : exponentPart u = 0)
    (hu5 : ∀ v ∈ "Infinity".toList.tails, v ≠ [] → v.isPrefixOf u = false) :
    parseDecimalPrefix (body ++ u) = parseDecimalPrefix body := by
  simp only [parseDecimalPrefix, takeSign_append body u hu0,
    isPrefixOf_append_stop _ _ u hu5, takeWhile_append_stop _ _ _ hu1,
    dropWhile_append_stop _ _ _ hu1, fractionDigits_append _ u hu1 hu2,
    afterFraction_append _ u hu1 hu3, exponentPart_append _ u hu0 hu1 hu4]

theorem parseFloat_append_unit (num u : String)
    (hu : u = "in" ∨ u = "pt" ∨ u = "em") :
    parseFloat (some (num ++ u)) = parseFloat (some num) := by
  have key : ∀ ul : List Char, ul.takeWhile isStrWhiteSpace = [] →
      takeSign ul = (false, ul) → ul.takeWhile isDecimalDigit = [] →
      fractionDigits ul = [] → afterFraction ul = ul → exponentPart ul = 0 →
      (∀ v ∈ "Infinity".toList.tails, v ≠ [] → v.isPrefixOf ul = false) →
      parseDecimalPrefix ((num.toList ++ ul).dropWhile isStrWhiteSpace) =
        parseDecimalPrefix (num.toList.dropWhile isStrWhiteSpace) := by
    intro ul h0 h1 h2 h3 h4 h5 h6
    rw [dropWhile_append_stop _ _ _ h0, parseDecimalPrefix_append _ ul h1 h2 h3 h4 h5 h6]
  simp only [parseFloat, Option.getD_some, String.toList, String.data_append]
  rcases hu with rfl | rfl | rfl
  · exact key _ (by decide) (by decide) (by decide) (by decide) (by decide) (by decide)
      (by decide)
  · exact key _ (by decide) (by decide) (by decide) (by decide) (by decide) (by decide)
      (by decide)
  · exact key _ (by decide) (by decide) (by decide) (by decide) (by decide) (by decide)
      (by decide)

theorem generatePdf_pdf_event (env : Engine) (html : Document) (rules : Rules)
    (page : PageRules) (size margin : Style) (options : PdfOptions)
    (hpage : rules.page = some page) (hsize : page.size = some size)
    (hmargin : page.margin = some margin)
    (hmem : Event.pdf options ∈ (generatePdf env html (some rules)).2) :
    options =
      { width := toPoints (size.get "width"), height := toPoints (size.get "height"),
        top := toPoints (margin.get "top"), right := toPoints (margin.get "right"),
        bottom := toPoints (margin.get "bottom"), left := toPoints (margin.get "left") } := by
  have hopt : pdfOptions (some rules) = .ok
      { width := toPoints (size.get "width"), height := toPoints (size.get "height"),
        top := toPoints (margin.get "top"), right := toPoints (margin.get "right"),
        bottom := toPoints (margin.get "bottom"), left := toPoints (margin.get "left") } := by
    simp [pdfOptions, deref, hpage, hsize, hmargin, bind, Except.bind, pure, Except.pure]
  simp only [generatePdf, generatePdfBody] at hmem
  cases hsheet : styleSheet (some rules) with
  | error e => simp [hsheet] at hmem
  | ok sheet =>
    cases hmk : env.mkdir <;> cases hwf : env.writeFile <;> cases hla : env.launch <;>
      simp [hsheet, hmk, hwf, hla] at hmem
    cases hnp : env.newPage <;> cases hgo : env.goto <;> cases hcl : env.close <;>
      simp [tryBlock, finallyBlock, hnp, hgo, hcl, hopt] at hmem
    all_goals exact hmem

theorem generatePdf_passes_toPoints (env : Engine) (html : Document) (rules : Rules)
    (page : PageRules) (size margin : Style) (options : PdfOptions)
    (hpage : rules.page = some page) (hsize : page.size = some size)
    (hmargin : page.margin = some margin)
    (hmem : Event.pdf options ∈ (generatePdf env html (some rules)).2)
    (j : Nat) (value : Option String) (hj : (pageDimensions size margin)[j]? = some value) :
    options.toList[j]? = some (toPoints value) := by
  have hlist : options.toList = (pageDimensions size margin).map toPoints := by
    rw [generatePdf_pdf_event env html rules page size margin options hpage hsize hmargin hmem]
    rfl
  rw [hlist, List.getElem?_map, hj]
  rfl

/-- C5 (failure of the claim as stated): with the top margin `0.7in`,
`generatePdf` calls `page.pdf` with the top margin 7093169413108531 · 2⁻⁴⁷ (50.4
to the nearest double), which is not a whole number and is not 50. -/
theorem generatePdf_passes_fraction :
    Event.pdf
      { width := JSNumber.ofNat 432, height := JSNumber.ofNat 648,
        top := .finite false 7093169413108531 (-47), right := JSNumber.ofNat 54,
        bottom := JSNumber.ofNat 54, left := JSNumber.ofNat 54 } ∈
      (generatePdf okEngine scenarioDoc (some (rulesWithPage
        [("top", "0.7in"), ("bottom", "0.75in"), ("left", "0.75in"), ("right", "0.75in")]
        [("width", "6in"), ("height", "9in")]))).2 ∧
    (JSNumber.finite false 7093169413108531 (-47)).isInteger = false ∧
    JSNumber.finite false 7093169413108531 (-47) ≠ JSNumber.ofNat 50 := by
  decide

/-- C5 (amended): whenever `generatePdf` calls `page.pdf`, each page size and
margin given in the rules as a dimension string in inches reaches the engine as
`parseFloat` of the text before `in` multiplied by 72 in binary64 arithmetic,
and nothing truncates it to a whole unit; when the inches are written as digits,
or as digits, a point and digits, that is the binary64 value nearest to the
decimal, multiplied by 72. -/
theorem generatePdf_inches_untruncated (env : Engine) (html : Document) (rules : Rules)
    (page : PageRules) (size margin : Style) (options : PdfOptions) (ip fp : List Char)
    (j : Nat) (hpage : rules.page = some page) (hsize : page.size = some size)
    (hmargin : page.margin = some margin)
    (hmem : Event.pdf options ∈ (generatePdf env html (some rules)).2)
    (hne : ip ≠ []) (hip : ∀ c ∈ ip, isDecimalDigit c = true)
    (hfp : ∀ c ∈ fp, isDecimalDigit c = true) :
    (∀ num : String, (pageDimensions size margin)[j]? = some (some (num ++ "in")) →
      options.toList[j]? = some ((parseFloat (some num)).mul (JSNumber.ofNat 72))) ∧
    ((pageDimensions size margin)[j]? = some (some (String.mk (ip ++ ['i', 'n']))) →
      options.toList[j]? =
        some ((roundBinary64 false (digitsValue ip) 1).mul (JSNumber.ofNat 72))) ∧
    ((pageDimensions size margin)[j]? =
        some (some (String.mk (ip ++ '.' :: (fp ++ ['i', 'n'])))) →
      options.toList[j]? =
        some ((roundBinary64 false (digitsValue (ip ++ fp)) (10 ^ fp.length)).mul
          (JSNumber.ofNat 72))) := by
  refine ⟨?_, ?_, ?_⟩
  · intro num hj
    rw [generatePdf_passes_toPoints env html rules page size margin options hpage hsize
      hmargin hmem j _ hj]
    simp only [toPoints]
    rw [parseFloat_append_unit num "in" (Or.inl rfl)]
  · intro hj
    rw [generatePdf_passes_toPoints env html rules page size margin options hpage hsize
      hmargin hmem j _ hj]
    simp only [toPoints, parseFloat, Option.getD_some, String.toList]
    rw [dropWhile_whiteSpace_digit ip _ hne hip,
      parseDecimalPrefix_whole ip _ hne hip (by intro rest h; cases h) (by decide) (by decide)]
  · intro hj
    rw [generatePdf_passes_toPoints env html rules page size margin options hpage hsize
      hmargin hmem j _ hj]
    simp only [toPoints, parseFloat, Option.getD_some, String.toList]
    rw [dropWhile_whiteSpace_digit ip _ hne hip,
      parseDecimalPrefix_digits ip fp _ hne hip hfp (by decide) (by decide)]

/-- Witness for C5 (amended): the top margin `0.7in` and the page width `6in`,
with a browser whose calls succeed. -/
theorem generatePdf_inches_untruncated_witness :
    (PdfOptions.toList
        { width := JSNumber.ofNat 432, height := JSNumber.ofNat 648,
          top := .finite false 7093169413108531 (-47), right := JSNumber.ofNat 54,
          bottom := JSNumber.ofNat 54, left := JSNumber.ofNat 54 })[2]? =
      some ((roundBinary64 false (digitsValue (['0'] ++ ['7'])) (10 ^ ['7'].length)).mul
        (JSNumber.ofNat 72)) :=
  (generatePdf_inches_untruncated okEngine scenarioDoc
    (rulesWithPage
      [("top", "0.7in"), ("bottom", "0.75in"), ("left", "0.75in"), ("right", "0.75in")]
      [("width", "6in"), ("height", "9in")])
    { margin := some [("top", "0.7in"), ("bottom", "0.75in"), ("left", "0.75in"),
        ("right", "0.75in")],
      size := some [("width", "6in"), ("height", "9in")] }
    [("width", "6in"), ("height", "9in")]
    [("top", "0.7in"), ("bottom", "0.75in"), ("left", "0.75in"), ("right", "0.75in")]
    { width := JSNumber.ofNat 432, height := JSNumber.ofNat 648,
      top := .finite false 7093169413108531 (-47), right := JSNumber.ofNat 54,
      bottom := JSNumber.ofNat 54, left := JSNumber.ofNat 54 }
    ['0'] ['7'] 2 rfl rfl rfl (by decide) (by decide) (by decide) (by decide)).2.2 (by decide)

/-- C16: whenever `generatePdf` calls `page.pdf`, a page size or margin given in
the rules as any text followed by `in`, `pt` or `em` reaches the engine as
`parseFloat` of that text multiplied by 72, whatever the suffix: only the
leading number is used. So `432pt`, `432in` and `432em` all give 31104, not 432. -/
theorem generatePdf_ignores_unit (env : Engine) (html : Document) (rules : Rules)
    (page : PageRules) (size margin : Style) (options : PdfOptions) (num : String)
    (j : Nat) (hpage : rules.page = some page) (hsize : page.size = some size)
    (hmargin : page.margin = some margin)
    (hmem : Event.pdf options ∈ (generatePdf env html (some rules)).2) :
    ((pageDimensions size margin)[j]? = some (some (num ++ "in")) →
      options.toList[j]? = some ((parseFloat (some num)).mul (JSNumber.ofNat 72))) ∧
    ((pageDimensions size margin)[j]? = some (some (num ++ "pt")) →
      options.toList[j]? = some ((parseFloat (some num)).mul (JSNumber.ofNat 72))) ∧
    ((pageDimensions size margin)[j]? = some (some (num ++ "em")) →
      options.toList[j]? = some ((parseFloat (some num)).mul (JSNumber.ofNat 72))) ∧
    (parseFloat (some "432")).mul (JSNumber.ofNat 72) = JSNumber.ofNat 31104 ∧
    JSNumber.ofNat 31104 ≠ JSNumber.ofNat 432 := by
  refine ⟨?_, ?_, ?_, by decide, by decide⟩
  · intro hj
    rw [generatePdf_passes_toPoints env html rules page size margin options hpage hsize
      hmargin hmem j _ hj, toPoints, parseFloat_append_unit num "in" (Or.inl rfl)]
  · intro hj
    rw [generatePdf_passes_toPoints env html rules page size margin options hpage hsize
      hmargin hmem j _ hj, toPoints, parseFloat_append_unit num "pt" (Or.inr (Or.inl rfl))]
  · intro hj
    rw [generatePdf_passes_toPoints env html rules page size margin options hpage hsize
      hmargin hmem j _ hj, toPoints, parseFloat_append_unit num "em" (Or.inr (Or.inr rfl))]

/-- Witness for C16: the page width `432pt`, with a browser whose calls succeed:
the width that reaches the engine is 31104. -/
theorem generatePdf_ignores_unit_witness :
    (PdfOptions.toList
        { width := JSNumber.ofNat 31104, height := JSNumber.ofNat 648,
          top := JSNumber.ofNat 54, right := JSNumber.ofNat 54,
          bottom := JSNumber.ofNat 54, left := JSNumber.ofNat 54 })[0]? =
      some ((parseFloat (some "432")).mul (JSNumber.ofNat 72)) :=
  (generatePdf_ignores_unit okEngine scenarioDoc
    (rulesWithPage
      [("top", "0.75in"), ("bottom", "0.75in"), ("left", "0.75in"), ("right", "0.75in")]
      [("width", "432pt"), ("height", "9in")])
    { margin := some [("top", "0.75in"), ("bottom", "0.75in"), ("left", "0.75in"),
        ("right", "0.75in")],
      size := some [("width", "432pt"), ("height", "9in")] }
    [("width", "432pt"), ("height", "9in")]
    [("top", "0.75in"), ("bottom", "0.75in"), ("left", "0.75in"), ("right", "0.75in")]
    { width := JSNumber.ofNat 31104, height := JSNumber.ofNat 648,
      top := JSNumber.ofNat 54, right := JSNumber.ofNat 54,
      bottom := JSNumber.ofNat 54, left := JSNumber.ofNat 54 }
    "432" 0 rfl rfl rfl (by decide)).2.1 (by decide)

theorem Style.assignAll_append (s a b : Style) :
    s.assignAll (a ++ b) = (s.assignAll a).assignAll b := by
  simp [Style.assignAll, List.foldl_append]

theorem Dom.assignAll_declarations (dom : Dom) (h : dom.storesDeclarations) (src : Style) :
    ∃ L : Style, ∀ s, dom.assignAll s src = s.assignAll L := by
  obtain ⟨declarations, hd⟩ := h
  induction src with
  | nil => exact ⟨[], fun s => rfl⟩
  | cons kv rest ih =>
    obtain ⟨L, hL⟩ := ih
    refine ⟨declarations kv.1 (some kv.2) ++ L, fun s => ?_⟩
    have hstep : dom.assignAll s (kv :: rest) =
        dom.assignAll (dom.assign s kv.1 (some kv.2)) rest := rfl
    rw [hstep, hL, hd, Style.assignAll_append]

theorem Dom.objectAssign_declarations (dom : Dom) (h : dom.storesDeclarations)
    (cat : Option Style) : ∃ L : Style, ∀ s, dom.objectAssign s cat = s.assignAll L := by
  cases cat with
  | none => exact ⟨[], fun s => rfl⟩
  | some src => exact dom.assignAll_declarations h src

theorem Dom.textStyled_declarations (dom : Dom) (h : dom.storesDeclarations) (t : Style) :
    ∃ L : Style, ∀ s, dom.textStyled t s = s.assignAll L := by
  obtain ⟨declarations, hd⟩ := h
  refine ⟨declarations "fontFamily" (t.get "fontFamily") ++
    (declarations "fontSize" (t.get "fontSize") ++ declarations "color" (t.get "color")),
    fun s => ?_⟩
  simp only [Dom.textStyled, hd, Style.assignAll_append]

theorem styleElement_declarations (dom : Dom) (h : dom.storesDeclarations) (t : Style)
    (c : ChapterRules) (s : SectionRules) (index : Nat) (tag : Tag) :
    ∃ L : Style, ∀ (text : String) (style : Style),
      styleElement dom t c s index { tag := tag, text := text, style := style } =
        { tag := tag, text := text, style := style.assignAll L } := by
  obtain ⟨Lt, hLt⟩ := dom.textStyled_declarations h t
  obtain ⟨Lp, hLp⟩ := dom.objectAssign_declarations h (paragraphCategory c index)
  obtain ⟨L1, hL1⟩ := dom.objectAssign_declarations h c.title
  obtain ⟨L2, hL2⟩ := dom.objectAssign_declarations h s.title
  cases tag with
  | h1 => exact ⟨L1, fun text style => by simp [styleElement, hL1]⟩
  | h2 => exact ⟨L2, fun text style => by simp [styleElement, hL2]⟩
  | p => exact ⟨Lt ++ Lp, fun text style => by
      simp [styleElement, hLt, hLp, Style.assignAll_append]⟩
  | span => exact ⟨Lt, fun text style => by simp [styleElement, hLt]⟩
  | div => exact ⟨Lt, fun text style => by simp [styleElement, hLt]⟩
  | other name => exact ⟨[], fun text style => rfl⟩

theorem styleElement_idem (dom : Dom) (h : dom.storesDeclarations) (t : Style)
    (c : ChapterRules) (s : SectionRules) (index : Nat) (el : Element) :
    styleElement dom t c s index (styleElement dom t c s index el) =
      styleElement dom t c s index el := by
  obtain ⟨tag, text, style⟩ := el
  obtain ⟨L, hL⟩ := styleElement_declarations dom h t c s index tag
  rw [hL, hL, Style.assignAll_idem]

theorem formatted_idem (dom : Dom) (h : dom.storesDeclarations) (t : Style)
    (c : ChapterRules) (s : SectionRules) (index : Nat) (doc : Document) :
    formatted dom t c s index (formatted dom t c s index doc) =
      formatted dom t c s index doc := by
  induction doc generalizing index with
  | nil => rfl
  | cons el rest ih =>
    simp only [formatted, styleElement_tag, styleElement_idem dom h t c s index el, ih]

theorem verbatimDom_storesDeclarations : verbatimDom.storesDeclarations := by
  refine ⟨fun key v => match v with
    | some x => [(key, x)]
    | none => [], ?_⟩
  intro s key v
  cases v <;> rfl

/-- C15: in the service, which has no `DOMParser`, every application of
`applyFormatting` throws the same error and changes no element. With a DOM in
scope, for every document and every rule set, when `applyFormatting` returns
`out` it has changed neither the order nor the tag nor the text of any element,
and applied again to `out` with the same rules it returns a document with the
same elements in the same order on each of which it has repeated the very
assignments of the first application (same rules, same paragraph index); the
second result is `out` itself whenever the DOM keeps a style as declarations
written in place. -/
theorem applyFormatting_idempotent (dom : Dom) (doc : Document) (rules : Rules) :
    (∀ doc2 : Document,
      applyFormatting none doc2 (some rules) = applyFormatting none doc (some rules) ∧
      ¬ ∃ out, applyFormatting none doc2 (some rules) = .ok out) ∧
    (∀ out : Document, applyFormatting (some dom) doc (some rules) = .ok out →
      out.map (fun el => (el.tag, el.text)) = doc.map (fun el => (el.tag, el.text)) ∧
      ∃ out2, applyFormatting (some dom) out (some rules) = .ok out2 ∧
        out2.map (fun el => (el.tag, el.text)) = out.map (fun el => (el.tag, el.text)) ∧
        (∀ i : Nat,
          out[i]? = (doc[i]?).map (styleElement dom (rules.text.getD [])
            (spreadChapter rules.chapter) (spreadSection rules.«section»)
            (paragraphIndex doc i)) ∧
          out2[i]? = (out[i]?).map (styleElement dom (rules.text.getD [])
            (spreadChapter rules.chapter) (spreadSection rules.«section»)
            (paragraphIndex doc i))) ∧
        (dom.storesDeclarations → out2 = out)) := by
  constructor
  · intro doc2
    refine ⟨rfl, ?_⟩
    rintro ⟨out, hout⟩
    rw [applyFormatting_node] at hout
    cases hout
  · intro out h
    have hout := applyFormatting_ok_eq dom doc out rules h
    have htags : out.map (·.tag) = doc.map (·.tag) := by
      rw [hout]
      exact formatted_tags dom _ _ _ 0 doc
    obtain ⟨out2, h2⟩ := applyFormatting_ok_transfer dom doc out out rules htags h
    have hout2 := applyFormatting_ok_eq dom out out2 rules h2
    refine ⟨?_, out2, h2, ?_, ?_, ?_⟩
    · rw [hout]
      exact formatted_tag_text dom _ _ _ 0 doc
    · rw [hout2]
      exact formatted_tag_text dom _ _ _ 0 out
    · intro i
      have hidx := paragraphIndex_congr out doc htags i
      constructor
      · rw [hout, formatted_getElem?, Nat.zero_add]
      · rw [hout2, formatted_getElem?, Nat.zero_add, hidx]
    · intro hstore
      rw [hout2, hout]
      exact formatted_idem dom hstore _ _ _ 0 doc

/-- Witness for C15: the scenario document under the fiction template, run twice
with the DOM double. -/
theorem applyFormatting_idempotent_witness :
    ∃ out out2, applyFormatting (some verbatimDom) scenarioDoc (some fiction.rules) = .ok out ∧
      applyFormatting (some verbatimDom) out (some fiction.rules) = .ok out2 ∧
      out.map (fun el => (el.tag, el.text)) =
        scenarioDoc.map (fun el => (el.tag, el.text)) ∧
      out2 = out := by
  obtain ⟨h1, out2, h2, _, _, h5⟩ :=
    (applyFormatting_idempotent verbatimDom scenarioDoc fiction.rules).2 _ rfl
  exact ⟨_, out2, rfl, h2, h1, h5 verbatimDom_storesDeclarations⟩

end Edipress
